import Mathlib

/-!
Verification of the persistent bash-execution core of the repository
(`src/open_claude_agent/tools/bash_tool.py`): the `BashSession` completion
protocol (`_read_with_timeout`, `execute_command`) and the `BashToolHandler`
facade (`validate_command`, `sanitize_output`, `truncate_output`, `handle`).

Python strings are modelled as `List Char` (`Str`).  All definitions are
computable and use structural recursion (fuel-based where the source recursion
is not structural) so that concrete runs evaluate by `decide`/`rfl`.
-/

set_option linter.unusedVariables false

abbrev Str := List Char

/-! ## Python string primitives -/

/-- Python whitespace set used by `str.strip`/`str.rstrip` and by the `re`
class `\s`, restricted to ASCII (the source only ever meets ASCII output):
space, tab, newline, carriage return, vertical tab, form feed. -/
def pyWS (c : Char) : Bool :=
  c == ' ' || c == '\t' || c == '\n' || c == '\r' || c == Char.ofNat 11 || c == Char.ofNat 12

/-- Python `str.rstrip()` with the default whitespace set. -/
def pyRstrip (s : Str) : Str := (s.reverse.dropWhile pyWS).reverse

/-- Python `str.strip()` with the default whitespace set. -/
def pyStrip (s : Str) : Str := (pyRstrip s).dropWhile pyWS

/-- `needle.isPrefixOf hay` as a boolean, written out so it reduces. -/
def hasPfx : Str → Str → Bool
  | [], _ => true
  | _ :: _, [] => false
  | a :: as, b :: bs => a == b && hasPfx as bs

/-- Python `needle in hay` (substring containment). -/
def containsSub : Str → Str → Bool
  | [], needle => hasPfx needle []
  | hay@(_ :: t), needle => hasPfx needle hay || containsSub t needle

/-- Python `"".join(lines)`. -/
def joinAll : List Str → Str
  | [] => []
  | l :: ls => l ++ joinAll ls

/-- Python `s.split('\n')` (split on every newline, keeping empty pieces). -/
def splitNl : Str → List Str
  | [] => [[]]
  | c :: rest =>
    if c = '\n' then [] :: splitNl rest
    else
      match splitNl rest with
      | [] => [[c]]
      | l :: ls => (c :: l) :: ls

/-- Python `'\n'.join(lines)`. -/
def joinNl : List Str → Str
  | [] => []
  | [l] => l
  | l :: ls => l ++ '\n' :: joinNl ls

/-- ASCII decimal digit test (`[0-9]`). -/
def isDig (c : Char) : Bool := '0' ≤ c && c ≤ '9'

/-- ASCII letter-or-digit test, the regex class `[A-Za-z0-9]`. -/
def isAl (c : Char) : Bool :=
  ('A' ≤ c && c ≤ 'Z') || ('a' ≤ c && c ≤ 'z') || ('0' ≤ c && c ≤ '9')

/-- The decimal digit characters, as a concrete table. -/
def digitChar (d : Nat) : Char :=
  if d = 0 then '0' else if d = 1 then '1' else if d = 2 then '2'
  else if d = 3 then '3' else if d = 4 then '4' else if d = 5 then '5'
  else if d = 6 then '6' else if d = 7 then '7' else if d = 8 then '8' else '9'

/-- Numeric value of a decimal digit character. -/
def chVal (c : Char) : Nat := c.toNat - 48

/-- Decimal rendering of a natural number (Python `str(n)` / f-string
interpolation), via a fuel argument so the recursion is structural. -/
def natToCharsAux : Nat → Nat → Str
  | 0, n => [digitChar n]
  | fuel + 1, n =>
    if n < 10 then [digitChar n]
    else natToCharsAux fuel (n / 10) ++ [digitChar (n % 10)]

/-- Decimal rendering of a natural number, Python `str(n)` for `n ≥ 0`. -/
def natToChars (n : Nat) : Str := natToCharsAux n n

/-- Python `str(i)` for an `int`. -/
def intToChars (i : Int) : Str :=
  if i < 0 then '-' :: natToChars i.natAbs else natToChars i.toNat

/-- Digit-sequence part of Python `int(...)` parsing: a nonempty digit run in
which single underscores may separate digits (`int("1_0") = 10`); unicode
digits are out of scope.  `goDigits` consumes after the first digit. -/
def goDigits (acc : Nat) : Str → Option Nat
  | [] => some acc
  | c :: cs =>
    if isDig c then goDigits (acc * 10 + chVal c) cs
    else if c == '_' then
      match cs with
      | c2 :: cs2 => if isDig c2 then goDigits (acc * 10 + chVal c2) cs2 else none
      | [] => none
    else none

/-- Nonempty digit run parser (see `goDigits`). -/
def pyIntDigits : Str → Option Nat
  | [] => none
  | c :: cs => if isDig c then goDigits (chVal c) cs else none

/-- Python `int(s)` on an already-stripped string: optional single sign then a
digit run.  Returns `none` where Python raises `ValueError`. -/
def parsePyInt (cs : Str) : Option Int :=
  match cs with
  | [] => none
  | c :: rest =>
    if c == '+' then (pyIntDigits rest).map (fun n => (n : Int))
    else if c == '-' then (pyIntDigits rest).map (fun n => -(n : Int))
    else (pyIntDigits cs).map (fun n => (n : Int))

/-! ## A small regex engine

The source uses `re.search`/`re.sub` with `re.IGNORECASE` on six denylist
patterns and three sanitization patterns.  Only the constructs those nine
patterns use are embedded: literal characters (case-insensitive), the classes
`\s`, `.`, `[A-Za-z0-9]`, `[=:]`, `[_-]`, `["']`, `[^"'\s]`, and the greedy
quantifiers `?`, `*`, `+` (`+` is encoded as one-then-star, `{20,}` as twenty
ones then star).  Matching is greedy with backtracking, like CPython's. -/

/-- ASCII upper-case counterpart of a character (identity off `a`..`z`). -/
def upChar (c : Char) : Char :=
  if 'a' ≤ c && c ≤ 'z' then Char.ofNat (c.toNat - 32) else c

/-- ASCII lower-case counterpart of a character (identity off `A`..`Z`). -/
def lowChar (c : Char) : Char :=
  if 'A' ≤ c && c ≤ 'Z' then Char.ofNat (c.toNat + 32) else c

/-- `re.IGNORECASE` literal match: the text character `x` matches the pattern
literal `p` or either ASCII case variant of it. -/
def ciEq (p x : Char) : Bool := x == p || x == upChar p || x == lowChar p

/-- Character classes occurring in the source's nine regex patterns. -/
inductive CharCls where
  | lit (c : Char)   -- a literal character, case-insensitive
  | alnum            -- [A-Za-z0-9]
  | wsp              -- \s
  | dotc             -- .  (anything except newline)
  | quo              -- ["']
  | notQW            -- [^"'\s]
  | eqcolon          -- [=:]
  | usdash           -- [_-]
  deriving DecidableEq

def CharCls.mat : CharCls → Char → Bool
  | .lit p, x => ciEq p x
  | .alnum, x => isAl x
  | .wsp, x => pyWS x
  | .dotc, x => !(x == '\n')
  | .quo, x => x == Char.ofNat 34 || x == Char.ofNat 39
  | .notQW, x => !(x == Char.ofNat 34 || x == Char.ofNat 39 || pyWS x)
  | .eqcolon, x => x == '=' || x == ':'
  | .usdash, x => x == '_' || x == '-'

/-- One element of a pattern: a single class, an optional class (`?`), or a
greedy star (`*`). -/
inductive RElem where
  | one (c : CharCls)
  | opt (c : CharCls)
  | star (c : CharCls)
  deriving DecidableEq

abbrev RPat := List RElem

/-- Greedy star loop with backtracking: consume as many `c`-matching
characters as possible, backing off until the continuation `k` succeeds.
Returns the total number of characters consumed (star plus continuation). -/
def starLoop (k : Str → Option Nat) (c : CharCls) : Str → Option Nat
  | [] => k []
  | x :: xs =>
    if c.mat x then
      match starLoop k c xs with
      | some n => some (n + 1)
      | none => k (x :: xs)
    else k (x :: xs)

/-- Anchored match of a pattern at the start of a string, greedy with
backtracking; returns the number of characters consumed, like the extent of a
CPython match object anchored at this position. -/
def rmatch : RPat → Str → Option Nat
  | [], _ => some 0
  | .one c :: ps, [] => none
  | .one c :: ps, x :: xs => if c.mat x then (rmatch ps xs).map (· + 1) else none
  | .opt c :: ps, [] => rmatch ps []
  | .opt c :: ps, x :: xs =>
    if c.mat x then
      match rmatch ps xs with
      | some n => some (n + 1)
      | none => rmatch ps (x :: xs)
    else rmatch ps (x :: xs)
  | .star c :: ps, s => starLoop (rmatch ps) c s

/-- `re.search(p, s)`: does `p` match at some position of `s`? -/
def rsearch (p : RPat) : Str → Bool
  | [] => (rmatch p []).isSome
  | s@(_ :: xs) => (rmatch p s).isSome || rsearch p xs

/-- `re.sub(p, repl, s)` (fuel-based so it reduces): scan left to right; at
each position, replace the leftmost greedy match and continue after it.  All
source patterns have match length at least 1, so the zero-width arm (which
falls through to plain copying) is never taken for them. -/
def rsubF (p : RPat) (repl : Str) : Nat → Str → Str
  | _, [] => []
  | 0, s => s
  | fuel + 1, x :: xs =>
    match rmatch p (x :: xs) with
    | some (n + 1) => repl ++ rsubF p repl fuel (List.drop n xs)
    | _ => x :: rsubF p repl fuel xs

/-- `re.sub(p, repl, s)`. -/
def rsub (p : RPat) (repl : Str) (s : Str) : Str := rsubF p repl s.length s

/-- A sequence of case-insensitive literal elements. -/
def lits (s : Str) : RPat := s.map (fun c => RElem.one (CharCls.lit c))

/-! ## The source's regex patterns

`BashToolHandler.DANGEROUS_PATTERNS` and `BashToolHandler.SENSITIVE_PATTERNS`,
each pattern paired with its Python source text (used in the block message). -/

/-- `rm\s+-rf\s+/` -/
def dangRm : RPat :=
  lits ("rm".toList) ++ [.one .wsp, .star .wsp] ++ lits ("-rf".toList)
    ++ [.one .wsp, .star .wsp] ++ lits ("/".toList)

/-- `:\(\)\{\s*:\|:&\s*\};:` (fork bomb) -/
def dangFork : RPat :=
  lits (":()\x7b".toList) ++ [.star .wsp] ++ lits (":|:&".toList)
    ++ [.star .wsp] ++ lits ("\x7d;:".toList)

/-- `mkfs\.` -/
def dangMkfs : RPat := lits ("mkfs.".toList)

/-- `dd\s+if=/dev/zero` -/
def dangDd : RPat :=
  lits ("dd".toList) ++ [.one .wsp, .star .wsp] ++ lits ("if=/dev/zero".toList)

/-- `wget.*\|\s*sh` -/
def dangWget : RPat :=
  lits ("wget".toList) ++ [.star .dotc, .one (.lit '|'), .star .wsp] ++ lits ("sh".toList)

/-- `curl.*\|\s*sh` -/
def dangCurl : RPat :=
  lits ("curl".toList) ++ [.star .dotc, .one (.lit '|'), .star .wsp] ++ lits ("sh".toList)

/-- `BashToolHandler.DANGEROUS_PATTERNS`, in source order, with source texts. -/
def DANGEROUS_PATTERNS : List (RPat × Str) :=
  [ (dangRm, "rm\\s+-rf\\s+/".toList),
    (dangFork, ":\\(\\)\\\x7b\\s*:\\|:&\\s*\\\x7d;:".toList),
    (dangMkfs, "mkfs\\.".toList),
    (dangDd, "dd\\s+if=/dev/zero".toList),
    (dangWget, "wget.*\\|\\s*sh".toList),
    (dangCurl, "curl.*\\|\\s*sh".toList) ]

/-- `[A-Za-z0-9]{20,}` (API tokens): twenty mandatory class characters then a
greedy star. -/
def sensToken : RPat := List.replicate 20 (RElem.one .alnum) ++ [.star .alnum]

/-- `password\s*=\s*["']?[^"'\s]+` -/
def sensPassword : RPat :=
  lits ("password".toList)
    ++ [.star .wsp, .one (.lit '='), .star .wsp, .opt .quo, .one .notQW, .star .notQW]

/-- `api[_-]?key\s*[=:]\s*["']?[^"'\s]+` -/
def sensApiKey : RPat :=
  lits ("api".toList) ++ [.opt .usdash] ++ lits ("key".toList)
    ++ [.star .wsp, .one .eqcolon, .star .wsp, .opt .quo, .one .notQW, .star .notQW]

/-- `BashToolHandler.SENSITIVE_PATTERNS`, in source order, with replacements. -/
def SENSITIVE_PATTERNS : List (RPat × Str) :=
  [ (sensToken, "[REDACTED_TOKEN]".toList),
    (sensPassword, "password=[REDACTED]".toList),
    (sensApiKey, "api_key=[REDACTED]".toList) ]

/-! ## BashSession -/

/-- The fixed sentinel prefix.  `execute_command` generates the per-invocation
marker `___END_OF_COMMAND___<uuid4>`, but `_read_with_timeout` tests lines
against this fixed prefix only (`if "___END_OF_COMMAND___" in line`). -/
def endMarker : Str := "___END_OF_COMMAND___".toList

/-- Session state: the liveness of the owned bash process, plus a ghost
counter of `execute_command` invocations (the spec's "invocation counter",
used to state that blocked commands never reach the session). -/
structure SessionState where
  alive : Bool
  invocations : Nat
  deriving DecidableEq

/-- A freshly spawned session (`BashSession._start_session`). -/
def initSession : SessionState := { alive := true, invocations := 0 }

/-- Result dictionary of `BashSession.execute_command`. -/
structure ExecResult where
  output : Str
  error : Option Str
  exit_code : Int
  deriving DecidableEq

/-- Core loop of `BashSession._read_with_timeout`: `arrivals` are the lines the
reader thread delivered to the queue and the polling loop dequeued within the
timeout budget, in arrival order.  Collection stops at the first line
containing the fixed sentinel prefix (that line is dropped); if the budget is
exhausted first (`arrivals` runs out with no such line), the read timed out. -/
def collectLines : List Str → List Str × Bool
  | [] => ([], true)
  | l :: rest =>
    if containsSub l endMarker then ([], false)
    else ((l :: (collectLines rest).1), (collectLines rest).2)

/-- `BashSession._read_with_timeout`: the collected lines are concatenated
(`"".join`); the second component is the `timed_out` flag. -/
def read_with_timeout (arrivals : List Str) : Str × Bool :=
  (joinAll (collectLines arrivals).1, (collectLines arrivals).2)

/-- The fixed exit-status probe prefix `EXIT_CODE:`. -/
def exitPfx : Str := "EXIT_CODE:".toList

/-- The exit-code scan of `execute_command`: find the first line that starts
with `EXIT_CODE:` and whose remainder (after the first colon, stripped)
parses as an int; remove that line.  Lines with the prefix but an unparseable
remainder are kept and scanning continues (the `except ValueError: pass`). -/
def extractExit : List Str → Option (Int × List Str)
  | [] => none
  | l :: rest =>
    if hasPfx exitPfx l then
      match parsePyInt (pyStrip (List.drop 10 l)) with
      | some n => some (n, rest)
      | none =>
        match extractExit rest with
        | some (n, ls) => some (n, l :: ls)
        | none => none
    else
      match extractExit rest with
      | some (n, ls) => some (n, l :: ls)
      | none => none

/-- Environment of one `execute_command` call: either the lines the reader
delivered within the budget, or an exception raised inside the `try` block
(modelled abstractly by its message). -/
inductive ExecEnv where
  | lines (arrivals : List Str)
  | sess_fault (msg : Str)
  deriving DecidableEq

/-- `BashSession.execute_command`.  The poll-and-respawn check, the timeout
branch (kill, respawn, exit code -1 with the budget in the message) and the
catch-all branch (kill, respawn, session-error message, exit code -1) all
leave the process alive; process spawning itself is modelled as infallible.
The ghost invocation counter increments on every call. -/
def execute_command (s : SessionState) (env : ExecEnv) (timeout : Nat) :
    SessionState × ExecResult :=
  match env with
  | .sess_fault msg =>
    ({ alive := true, invocations := s.invocations + 1 },
     { output := [], error := some ("Session error: ".toList ++ msg), exit_code := -1 })
  | .lines arrivals =>
    -- `if self.process.poll() is not None: self._start_session()`: alive either way
    let s1 : SessionState := { alive := true, invocations := s.invocations + 1 }
    let r := read_with_timeout arrivals
    if r.2 then
      -- timeout: `self.process.kill(); self._start_session()`
      ({ alive := true, invocations := s.invocations + 1 },
       { output := r.1,
         error := some ("Command timed out after ".toList ++ natToChars timeout
                          ++ " seconds".toList),
         exit_code := -1 })
    else
      let ls := splitNl r.1
      match extractExit ls with
      | some (n, ls2) =>
        (s1, { output := pyRstrip (joinNl ls2), error := none, exit_code := n })
      | none =>
        (s1, { output := pyRstrip (joinNl ls), error := none, exit_code := 0 })

/-! ## BashToolHandler -/

/-- Handler state: the owned session plus the caller-supplied configuration. -/
structure HandlerState where
  session : SessionState
  timeout : Nat
  max_output_lines : Nat
  deriving DecidableEq

/-- A handler as constructed by `BashToolHandler.__init__` (fresh session). -/
def mkHandler (timeout max_output_lines : Nat) : HandlerState :=
  { session := initSession, timeout := timeout, max_output_lines := max_output_lines }

/-- The tool request: `tool_input.get("command", "")` and
`tool_input.get("restart", False)`. -/
structure ToolInput where
  command : Str
  restart : Bool
  deriving DecidableEq

/-- The response dictionary; `none` fields model absent keys. -/
structure Response where
  output : Option Str
  error : Option Str
  exit_code : Option Int
  message : Option Str
  deriving DecidableEq

/-- A Python exception value, abstracted to its message. -/
structure PyErr where
  msg : Str
  deriving DecidableEq

/-- `BashToolHandler.validate_command`: first matching denylist pattern wins
(case-insensitive search); returns `(is_valid, error_message)`. -/
def validate_command (command : Str) : Bool × Option Str :=
  match DANGEROUS_PATTERNS.find? (fun pr => rsearch pr.1 command) with
  | some pr => (false, some ("Blocked dangerous command pattern: ".toList ++ pr.2))
  | none => (true, none)

/-- `BashToolHandler.sanitize_output`: apply the three sensitive-pattern
substitutions in source order. -/
def sanitize_output (output : Str) : Str :=
  SENSITIVE_PATTERNS.foldl (fun acc pr => rsub pr.1 pr.2 acc) output

/-- `BashToolHandler.truncate_output`. -/
def truncate_output (max_output_lines : Nat) (output : Str) : Str :=
  let lines := splitNl output
  if lines.length ≤ max_output_lines then output
  else
    joinNl (lines.take max_output_lines)
      ++ "\n\n[Output truncated: ".toList ++ natToChars lines.length
      ++ " total lines, showing first ".toList ++ natToChars max_output_lines
      ++ "]".toList

/-- Environment of one `handle` call: what the session layer does, or an
exception that escapes the session layer into `handle`'s `try` block. -/
inductive HandlerEnv where
  | exec (e : ExecEnv)
  | raise (msg : Str)
  deriving DecidableEq

/-- `BashToolHandler.execute_with_timeout`, in the exception monad: it may
raise (environment `.raise`), which `handle`'s `try` must catch. -/
def execute_with_timeout (h : HandlerState) (env : HandlerEnv) :
    Except PyErr (SessionState × ExecResult) :=
  match env with
  | .raise msg => .error ⟨msg⟩
  | .exec e => .ok (execute_command h.session e h.timeout)

/-- `BashToolHandler.handle`, in the exception monad over the handler state:
restart short-circuit, empty-command rejection, denylist validation, then the
guarded execute/sanitize/truncate/compose path with its catch-all. -/
def handle (h : HandlerState) (tool_input : ToolInput) (env : HandlerEnv) :
    Except PyErr (HandlerState × Response) :=
  if tool_input.restart then
    .ok ({ h with session := { alive := true, invocations := h.session.invocations } },
         { output := some [], error := none, exit_code := none,
           message := some ("New bash session started".toList) })
  else if tool_input.command = [] then
    .ok (h, { output := some [], error := some ("No command provided".toList),
              exit_code := some 1, message := none })
  else
    match validate_command tool_input.command with
    | (false, msg) =>
      .ok (h, { output := some [], error := msg, exit_code := some 1, message := none })
    | (true, _) =>
      match execute_with_timeout h env with
      | .error e =>
        .ok (h, { output := some [],
                  error := some ("Error executing command: ".toList ++ e.msg),
                  exit_code := some (-1), message := none })
      | .ok (s2, result) =>
        let output :=
          if result.output = [] then result.output
          else truncate_output h.max_output_lines (sanitize_output result.output)
        let errTruthy := result.error ≠ none ∧ result.error ≠ some []
        let error : Option Str :=
          match result.error with
          | none => none
          | some e => if e = [] then some e
                      else some (truncate_output h.max_output_lines (sanitize_output e))
        let respError : Option Str := if e2 : errTruthy then error else none
        let message : Str :=
          if result.exit_code = 0 then "Command executed successfully".toList
          else "Command exited with code ".toList ++ intToChars result.exit_code
        .ok ({ h with session := s2 },
             { output := some output, error := respError,
               exit_code := some result.exit_code, message := some message })

/-- A finite sequence of sequential `handle` calls against one handler
(the `.error` arm never fires, by `C5_handle_total`). -/
def runCalls (h : HandlerState) (calls : List (ToolInput × HandlerEnv)) : HandlerState :=
  calls.foldl
    (fun st c =>
      match handle st c.1 c.2 with
      | .ok (h2, _) => h2
      | .error _ => st)
    h

/-! ## Lemmas: newline splitting and joining -/

theorem splitNl_ne_nil (s : Str) : splitNl s ≠ [] := by
  cases s with
  | nil => simp [splitNl]
  | cons c rest =>
    simp only [splitNl]
    split
    · simp
    · split <;> simp

theorem splitNl_append_nl (u s : Str) (h : '\n' ∉ u) :
    splitNl (u ++ '\n' :: s) = u :: splitNl s := by
  induction u with
  | nil => simp [splitNl]
  | cons c cs ih =>
    have hc : ¬ c = '\n' := fun e => h (by simp [e])
    have hcs : '\n' ∉ cs := fun hm => h (List.mem_cons_of_mem _ hm)
    rw [List.cons_append]
    simp only [splitNl, if_neg hc]
    rw [ih hcs]

theorem splitNl_nl_free (u : Str) (h : '\n' ∉ u) : splitNl u = [u] := by
  induction u with
  | nil => simp [splitNl]
  | cons c cs ih =>
    have hc : ¬ c = '\n' := fun e => h (by simp [e])
    have hcs : '\n' ∉ cs := fun hm => h (List.mem_cons_of_mem _ hm)
    simp only [splitNl, if_neg hc, ih hcs]

theorem mem_splitNl_nl_free (s : Str) : ∀ l ∈ splitNl s, '\n' ∉ l := by
  induction s with
  | nil => intro l hl; simp [splitNl] at hl; simp [hl]
  | cons c rest ih =>
    intro l hl
    simp only [splitNl] at hl
    by_cases hc : c = '\n'
    · rw [if_pos hc] at hl
      rcases List.mem_cons.mp hl with h | h
      · simp [h]
      · exact ih l h
    · rw [if_neg hc] at hl
      rcases e : splitNl rest with _ | ⟨l0, ls0⟩
      · exact absurd e (splitNl_ne_nil rest)
      · rw [e] at hl
        rcases List.mem_cons.mp hl with h | h
        · subst h
          intro hmem
          rcases List.mem_cons.mp hmem with h2 | h2
          · exact hc h2.symm
          · exact ih l0 (e ▸ List.mem_cons_self l0 ls0) h2
        · exact ih l (e ▸ List.mem_cons_of_mem l0 h)

theorem joinNl_splitNl (s : Str) : joinNl (splitNl s) = s := by
  induction s with
  | nil => simp [splitNl, joinNl]
  | cons c rest ih =>
    simp only [splitNl]
    by_cases hc : c = '\n'
    · rw [if_pos hc]
      rcases e : splitNl rest with _ | ⟨l0, ls0⟩
      · exact absurd e (splitNl_ne_nil rest)
      · rw [e] at ih
        subst hc
        simp [joinNl, ih]
    · rw [if_neg hc]
      rcases e : splitNl rest with _ | ⟨l0, ls0⟩
      · exact absurd e (splitNl_ne_nil rest)
      · rw [e] at ih
        cases ls0 with
        | nil => simp [joinNl] at ih ⊢; simp [ih]
        | cons l1 ls1 => simp [joinNl] at ih ⊢; simp [ih]

theorem splitNl_joinNl_append (us : List Str) (r : Str) (hne : us ≠ [])
    (h : ∀ u ∈ us, '\n' ∉ u) :
    splitNl (joinNl us ++ '\n' :: r) = us ++ splitNl r := by
  induction us with
  | nil => exact absurd rfl hne
  | cons u us2 ih =>
    cases us2 with
    | nil => simpa [joinNl] using splitNl_append_nl u r (h u (by simp))
    | cons v vs =>
      have hj : joinNl (u :: v :: vs) = u ++ '\n' :: joinNl (v :: vs) := rfl
      rw [hj, List.append_assoc, List.cons_append,
        splitNl_append_nl u _ (h u (by simp)),
        ih (by simp) (fun x hx => h x (List.mem_cons_of_mem _ hx))]
      simp

theorem joinNl_append_empty (us : List Str) (hne : us ≠ []) :
    joinNl (us ++ [[]]) = joinNl us ++ ['\n'] := by
  induction us with
  | nil => exact absurd rfl hne
  | cons u us2 ih =>
    cases us2 with
    | nil => simp [joinNl]
    | cons v vs =>
      have h1 : joinNl ((u :: v :: vs) ++ [[]]) = u ++ '\n' :: joinNl ((v :: vs) ++ [[]]) := rfl
      have h2 : joinNl (u :: v :: vs) = u ++ '\n' :: joinNl (v :: vs) := rfl
      rw [h1, h2, ih (by simp)]
      simp

/-! ## Lemmas: strip and decimal rendering -/

theorem pyRstrip_append_ws (s : Str) (c : Char) (hc : pyWS c = true) :
    pyRstrip (s ++ [c]) = pyRstrip s := by
  simp [pyRstrip, List.dropWhile, hc]

theorem natToCharsAux_fuel (f1 : Nat) : ∀ (f2 n : Nat), n ≤ f1 → n ≤ f2 →
    natToCharsAux f1 n = natToCharsAux f2 n := by
  induction f1 with
  | zero =>
    intro f2 n h1 h2
    have hn : n = 0 := Nat.le_zero.mp h1
    subst hn
    cases f2 <;> simp [natToCharsAux]
  | succ f ih =>
    intro f2 n h1 h2
    by_cases hn : n < 10
    · cases f2 <;> simp [natToCharsAux, hn]
    · cases f2 with
      | zero => omega
      | succ f2p =>
        simp only [natToCharsAux, if_neg hn]
        rw [ih f2p (n / 10) (by omega) (by omega)]

theorem natToChars_eq (n : Nat) :
    natToChars n
      = if n < 10 then [digitChar n]
        else natToChars (n / 10) ++ [digitChar (n % 10)] := by
  unfold natToChars
  cases n with
  | zero => simp [natToCharsAux]
  | succ m =>
    by_cases h10 : m + 1 < 10
    · simp [natToCharsAux, h10]
    · simp only [natToCharsAux, if_neg h10]
      rw [natToCharsAux_fuel m ((m + 1) / 10) ((m + 1) / 10) (by omega) (le_refl _)]

theorem digitChar_isDig (d : Nat) : isDig (digitChar d) = true := by
  unfold digitChar
  split_ifs <;> decide

theorem chVal_digitChar (d : Nat) (h : d < 10) : chVal (digitChar d) = d := by
  unfold digitChar
  split_ifs with h0 h1 h2 h3 h4 h5 h6 h7 h8 <;> try (subst_vars; decide)
  have : d = 9 := by omega
  subst this; decide

theorem natToChars_digits (n : Nat) : ∀ c ∈ natToChars n, isDig c = true := by
  induction n using Nat.strong_induction_on with
  | _ n ih =>
    rw [natToChars_eq]
    split
    · intro c hc
      simp only [List.mem_singleton] at hc
      subst hc
      exact digitChar_isDig _
    · intro c hc
      rcases List.mem_append.mp hc with hcl | hcr
      · exact ih (n / 10) (Nat.div_lt_self (by omega) (by omega)) c hcl
      · simp only [List.mem_singleton] at hcr
        subst hcr
        exact digitChar_isDig _

theorem natToChars_ne_nil (n : Nat) : natToChars n ≠ [] := by
  rw [natToChars_eq]
  split <;> simp

theorem nl_not_mem_natToChars (n : Nat) : '\n' ∉ natToChars n := by
  intro hm
  exact absurd (natToChars_digits n _ hm) (by decide)

/-- Decimal value of a digit string (the accumulator semantics of Python
`int` on a plain digit run). -/
def valD (ds : Str) : Nat := ds.foldl (fun a c => a * 10 + chVal c) 0

theorem valD_natToChars (n : Nat) : valD (natToChars n) = n := by
  induction n using Nat.strong_induction_on with
  | _ n ih =>
    rw [natToChars_eq]
    split
    · simp [valD, chVal_digitChar n (by omega)]
    · rename_i h10
      unfold valD
      rw [List.foldl_append]
      have ihq := ih (n / 10) (Nat.div_lt_self (by omega) (by omega))
      unfold valD at ihq
      rw [ihq]
      simp [chVal_digitChar (n % 10) (Nat.mod_lt n (by omega))]
      omega

theorem natToChars_inj (a b : Nat) (h : natToChars a = natToChars b) : a = b := by
  rw [← valD_natToChars a, h, valD_natToChars]

/-! ## Truncation (claim C3) -/

/-- The one-line summary text appended by `truncate_output` (without the two
leading newlines): `[Output truncated: N total lines, showing first m]`. -/
def summaryLine (m N : Nat) : Str :=
  "[Output truncated: ".toList
    ++ (natToChars N ++ (" total lines, showing first ".toList ++ (natToChars m ++ "]".toList)))

theorem summaryLine_nl_free (m N : Nat) : '\n' ∉ summaryLine m N := by
  intro hm
  simp only [summaryLine, List.mem_append] at hm
  rcases hm with h | h | h | h | h
  · exact absurd h (by decide)
  · exact nl_not_mem_natToChars _ h
  · exact absurd h (by decide)
  · exact nl_not_mem_natToChars _ h
  · exact absurd h (by decide)

theorem truncate_output_gt (m : Nat) (s : Str) (h : ¬ (splitNl s).length ≤ m) :
    truncate_output m s
      = joinNl ((splitNl s).take m) ++ '\n' :: '\n' :: summaryLine m (splitNl s).length := by
  simp only [truncate_output, if_neg h]
  rw [show ("\n\n[Output truncated: ".toList : Str)
        = '\n' :: '\n' :: "[Output truncated: ".toList from rfl]
  simp [summaryLine, List.append_assoc]

/-- C3 counterexample: `truncate_output` is not idempotent.  With
`max_lines = 2` and a five-line input, the first truncation yields a
four-line string (two kept lines, a blank line, a summary line), so the
second truncation re-truncates and rewrites the summary to name 4 total
lines, producing a different string. -/
theorem C3_counterexample_not_idempotent :
    truncate_output 2 (truncate_output 2 ("a\nb\nc\nd\ne".toList))
      ≠ truncate_output 2 ("a\nb\nc\nd\ne".toList)
    ∧ 2 < (splitNl ("a\nb\nc\nd\ne".toList)).length := by
  decide

/-- C3 (amended): for `max_lines ≥ 1`, a string with at most `max_lines`
lines is returned unchanged; a longer string is cut to its first `max_lines`
lines followed by a blank line and a summary line naming the original total;
re-truncating replaces the summary with one naming `max_lines + 2` total
lines, which is identical to the once-truncated string exactly when the
original had `max_lines + 2` lines — so truncation is NOT idempotent in
general (the summary is not excluded from the recount). -/
theorem C3_amended_truncate (m : Nat) (s : Str) (hm : 1 ≤ m) :
    ((splitNl s).length ≤ m → truncate_output m s = s)
    ∧ (m < (splitNl s).length →
        splitNl (truncate_output m s)
          = (splitNl s).take m ++ [[], summaryLine m (splitNl s).length]
        ∧ truncate_output m (truncate_output m s)
          = joinNl ((splitNl s).take m) ++ '\n' :: '\n' :: summaryLine m (m + 2)
        ∧ (truncate_output m (truncate_output m s) = truncate_output m s
            ↔ (splitNl s).length = m + 2)) := by
  constructor
  · intro h
    simp [truncate_output, h]
  · intro h
    have hnle : ¬ (splitNl s).length ≤ m := by omega
    have htr := truncate_output_gt m s hnle
    have hlen_take : ((splitNl s).take m).length = m := by
      rw [List.length_take]; omega
    have htake_ne : (splitNl s).take m ≠ [] := by
      intro e
      rw [e] at hlen_take
      simp at hlen_take
      omega
    have hfree : ∀ u ∈ (splitNl s).take m, '\n' ∉ u :=
      fun u hu => mem_splitNl_nl_free s u (List.take_subset m (splitNl s) hu)
    have hsline := summaryLine_nl_free m (splitNl s).length
    have hsplit : splitNl (truncate_output m s)
        = (splitNl s).take m ++ [[], summaryLine m (splitNl s).length] := by
      rw [htr, splitNl_joinNl_append _ _ htake_ne hfree]
      have e1 : splitNl ('\n' :: summaryLine m (splitNl s).length)
          = [] :: splitNl (summaryLine m (splitNl s).length) := rfl
      rw [e1, splitNl_nl_free _ hsline]
    have hlen2 : (splitNl (truncate_output m s)).length = m + 2 := by
      rw [hsplit]
      simp [hlen_take]
    have hnle2 : ¬ (splitNl (truncate_output m s)).length ≤ m := by omega
    have htake2 : (splitNl (truncate_output m s)).take m = (splitNl s).take m := by
      rw [hsplit]
      have h5 := List.take_left ((splitNl s).take m)
        [[], summaryLine m (splitNl s).length]
      rw [hlen_take] at h5
      exact h5
    have htr2 : truncate_output m (truncate_output m s)
        = joinNl ((splitNl s).take m) ++ '\n' :: '\n' :: summaryLine m (m + 2) := by
      rw [truncate_output_gt m _ hnle2, hlen2, htake2]
    refine ⟨hsplit, htr2, ?_, ?_⟩
    · intro heq
      rw [htr2, htr] at heq
      have h1 := List.append_cancel_left heq
      simp only [List.cons.injEq, true_and] at h1
      have h2 := List.append_cancel_left (show
          ("[Output truncated: ".toList : Str)
            ++ (natToChars (m + 2) ++ (" total lines, showing first ".toList
                  ++ (natToChars m ++ "]".toList)))
          = "[Output truncated: ".toList
            ++ (natToChars (splitNl s).length ++ (" total lines, showing first ".toList
                  ++ (natToChars m ++ "]".toList))) from h1)
      have hlen3 : (natToChars (m + 2)).length = (natToChars (splitNl s).length).length := by
        have h3 := congrArg List.length h2
        simp only [List.length_append] at h3
        omega
      have h4 := (List.append_inj h2 hlen3).1
      exact (natToChars_inj _ _ h4).symm
    · intro hN
      rw [htr2, htr, hN]

theorem C3_amended_truncate_witness :
    1 ≤ 2
    ∧ (((splitNl ("p\nq\nr\ns\nt".toList)).length ≤ 2 →
          truncate_output 2 ("p\nq\nr\ns\nt".toList) = "p\nq\nr\ns\nt".toList)
       ∧ (2 < (splitNl ("p\nq\nr\ns\nt".toList)).length →
          splitNl (truncate_output 2 ("p\nq\nr\ns\nt".toList))
            = (splitNl ("p\nq\nr\ns\nt".toList)).take 2
                ++ [[], summaryLine 2 (splitNl ("p\nq\nr\ns\nt".toList)).length]
          ∧ truncate_output 2 (truncate_output 2 ("p\nq\nr\ns\nt".toList))
            = joinNl ((splitNl ("p\nq\nr\ns\nt".toList)).take 2)
                ++ '\n' :: '\n' :: summaryLine 2 (2 + 2)
          ∧ (truncate_output 2 (truncate_output 2 ("p\nq\nr\ns\nt".toList))
                = truncate_output 2 ("p\nq\nr\ns\nt".toList)
              ↔ (splitNl ("p\nq\nr\ns\nt".toList)).length = 2 + 2))) :=
  ⟨by decide, C3_amended_truncate 2 ("p\nq\nr\ns\nt".toList) (by decide)⟩

/-! ## Lemmas: reading until the sentinel (claims C1, C4) -/

theorem collectLines_no_marker (ls : List Str)
    (h : ∀ l ∈ ls, containsSub l endMarker = false) :
    collectLines ls = (ls, true) := by
  induction ls with
  | nil => rfl
  | cons l rest ih =>
    simp only [collectLines]
    simp [h l (List.mem_cons_self l rest),
      ih (fun x hx => h x (List.mem_cons_of_mem _ hx))]

theorem collectLines_marker (pre : List Str) (mline : Str) (post : List Str)
    (hpre : ∀ l ∈ pre, containsSub l endMarker = false)
    (hm : containsSub mline endMarker = true) :
    collectLines (pre ++ mline :: post) = (pre, false) := by
  induction pre with
  | nil => simp [collectLines, hm]
  | cons l rest ih =>
    simp only [List.cons_append, collectLines]
    simp [hpre l (List.mem_cons_self l rest),
      ih (fun x hx => hpre x (List.mem_cons_of_mem _ hx))]

/-- C1 counterexample: completion detection keys on the fixed substring
`___END_OF_COMMAND___`, not on the freshly generated per-invocation marker.
Suppose the current invocation's unique marker is `___END_OF_COMMAND___b`; a
stale line `___END_OF_COMMAND___a` does not contain it, yet the read ends
there (`timed_out = false`) and the later line `late` is discarded — so a
line lacking the current invocation's unique marker does end collection,
contradicting the claim. -/
theorem C1_counterexample_fixed_marker :
    containsSub ("___END_OF_COMMAND___a\n".toList) ("___END_OF_COMMAND___b".toList) = false
    ∧ read_with_timeout
        ["out\n".toList, "___END_OF_COMMAND___a\n".toList, "late\n".toList]
        = ("out\n".toList, false) := by
  decide

/-- C1 (amended): `_read_with_timeout` ends collection exactly at the first
arriving line containing the FIXED sentinel prefix `___END_OF_COMMAND___`
(every per-invocation marker contains this prefix, but so does any stale or
forged marker line); the lines preceding that line are concatenated in
arrival order and returned, and the detecting line itself is discarded. -/
theorem C1_amended_marker_detection (pre : List Str) (mline : Str) (post : List Str)
    (hpre : ∀ l ∈ pre, containsSub l endMarker = false)
    (hm : containsSub mline endMarker = true) :
    read_with_timeout (pre ++ mline :: post) = (joinAll pre, false) := by
  unfold read_with_timeout
  rw [collectLines_marker pre mline post hpre hm]

theorem C1_amended_marker_detection_witness :
    (∀ l ∈ ["a\n".toList], containsSub l endMarker = false)
    ∧ containsSub ("___END_OF_COMMAND___x\n".toList) endMarker = true
    ∧ read_with_timeout
        (["a\n".toList] ++ "___END_OF_COMMAND___x\n".toList :: ["z\n".toList])
        = (joinAll ["a\n".toList], false) :=
  ⟨by decide, by decide,
    C1_amended_marker_detection ["a\n".toList] ("___END_OF_COMMAND___x\n".toList)
      ["z\n".toList] (by decide) (by decide)⟩

/-- C4: when no line containing the sentinel prefix arrives within the budget
(the read times out), `execute_command` returns the partial output, exit code
`-1`, an error message naming the configured timeout budget, and a freshly
respawned (alive) session. -/
theorem C4_timeout_kills_respawns (s : SessionState) (t : Nat) (arrivals : List Str)
    (h : ∀ l ∈ arrivals, containsSub l endMarker = false) :
    execute_command s (.lines arrivals) t
      = ({ alive := true, invocations := s.invocations + 1 },
         { output := joinAll arrivals,
           error := some ("Command timed out after ".toList ++ natToChars t
                            ++ " seconds".toList),
           exit_code := -1 }) := by
  have hr : read_with_timeout arrivals = (joinAll arrivals, true) := by
    unfold read_with_timeout
    rw [collectLines_no_marker arrivals h]
  simp only [execute_command]
  rw [hr]
  rfl

theorem C4_timeout_kills_respawns_witness :
    (∀ l ∈ ["partial\n".toList], containsSub l endMarker = false)
    ∧ execute_command initSession (.lines ["partial\n".toList]) 30
        = ({ alive := true, invocations := 1 },
           { output := joinAll ["partial\n".toList],
             error := some ("Command timed out after ".toList ++ natToChars 30
                              ++ " seconds".toList),
             exit_code := -1 }) :=
  ⟨by decide, C4_timeout_kills_respawns initSession 30 ["partial\n".toList] (by decide)⟩

/-! ## Session liveness and handler totality (claims C2, C5) -/

theorem execute_command_alive (s : SessionState) (e : ExecEnv) (t : Nat) :
    (execute_command s e t).1.alive = true := by
  cases e with
  | sess_fault msg => rfl
  | lines arrivals =>
    simp only [execute_command]
    split
    · rfl
    · split <;> rfl

theorem execute_with_timeout_ok_alive (h : HandlerState) (env : HandlerEnv)
    (pr : SessionState × ExecResult)
    (he : execute_with_timeout h env = .ok pr) : pr.1.alive = true := by
  cases env with
  | raise msg => simp [execute_with_timeout] at he
  | exec e =>
    simp only [execute_with_timeout, Except.ok.injEq] at he
    rw [← he]
    exact execute_command_alive h.session e h.timeout

theorem handle_ok_alive (h : HandlerState) (inp : ToolInput) (env : HandlerEnv)
    (hal : h.session.alive = true) (h2 : HandlerState) (r : Response)
    (he : handle h inp env = .ok (h2, r)) : h2.session.alive = true := by
  unfold handle at he
  by_cases hres : inp.restart
  · rw [if_pos hres] at he
    simp only [Except.ok.injEq, Prod.mk.injEq] at he
    rw [← he.1]
  · rw [if_neg hres] at he
    by_cases hcmd : inp.command = []
    · rw [if_pos hcmd] at he
      simp only [Except.ok.injEq, Prod.mk.injEq] at he
      rw [← he.1]
      exact hal
    · rw [if_neg hcmd] at he
      rcases hv : validate_command inp.command with ⟨ok, msg⟩
      rw [hv] at he
      cases ok
      · simp only [Except.ok.injEq, Prod.mk.injEq] at he
        rw [← he.1]
        exact hal
      · rcases hex : execute_with_timeout h env with e | pr
        · rw [hex] at he
          simp only [Except.ok.injEq, Prod.mk.injEq] at he
          rw [← he.1]
          exact hal
        · rcases pr with ⟨s2, result⟩
          rw [hex] at he
          simp only [Except.ok.injEq, Prod.mk.injEq] at he
          rw [← he.1]
          exact execute_with_timeout_ok_alive h env (s2, result) hex

theorem runCalls_cons (h : HandlerState) (c : ToolInput × HandlerEnv)
    (cs : List (ToolInput × HandlerEnv)) :
    runCalls h (c :: cs)
      = runCalls
          (match handle h c.1 c.2 with
           | .ok (h2, _) => h2
           | .error _ => h)
          cs := rfl

theorem runCalls_alive (cs : List (ToolInput × HandlerEnv)) :
    ∀ h : HandlerState, h.session.alive = true →
      (runCalls h cs).session.alive = true := by
  induction cs with
  | nil => intro h hal; exact hal
  | cons c cs2 ih =>
    intro h hal
    rw [runCalls_cons]
    apply ih
    rcases he : handle h c.1 c.2 with e | pr
    · simp only [he]
      exact hal
    · rcases pr with ⟨h2, r⟩
      simp only [he]
      exact handle_ok_alive h c.1 c.2 hal h2 r he

/-- C2: every branch of `execute_command` (success, timeout, internal fault)
returns with the session process alive, and consequently any finite sequence
of sequential `handle` calls against one freshly constructed handler leaves
the session alive at the end: a fault affects only that call's result. -/
theorem C2_session_always_alive :
    (∀ (s : SessionState) (e : ExecEnv) (t : Nat),
        (execute_command s e t).1.alive = true)
    ∧ (∀ (t m : Nat) (calls : List (ToolInput × HandlerEnv)),
        (runCalls (mkHandler t m) calls).session.alive = true) :=
  ⟨execute_command_alive,
   fun t m calls => runCalls_alive calls (mkHandler t m) rfl⟩

/-- C5: `handle` is total — for every request (any command string, any restart
flag), any session environment (including an exception escaping the session
layer) and any handler state, `handle` returns a response and never
propagates an exception. -/
theorem C5_handle_total (h : HandlerState) (inp : ToolInput) (env : HandlerEnv) :
    ∃ h2 r, handle h inp env = Except.ok (h2, r) := by
  unfold handle
  by_cases hres : inp.restart
  · rw [if_pos hres]
    exact ⟨_, _, rfl⟩
  · rw [if_neg hres]
    by_cases hcmd : inp.command = []
    · rw [if_pos hcmd]
      exact ⟨_, _, rfl⟩
    · rw [if_neg hcmd]
      rcases hv : validate_command inp.command with ⟨ok, msg⟩
      cases ok
      · exact ⟨_, _, rfl⟩
      · rcases hex : execute_with_timeout h env with e | pr
        · exact ⟨_, _, rfl⟩
        · rcases pr with ⟨s2, result⟩
          exact ⟨_, _, rfl⟩

/-! ## Lemmas: integer parsing and the exit-code scan (claims C7, C10) -/

theorem goDigits_all_digits (ds : Str) : ∀ acc : Nat, (∀ c ∈ ds, isDig c = true) →
    goDigits acc ds = some (ds.foldl (fun a c => a * 10 + chVal c) acc) := by
  induction ds with
  | nil => intro acc h; rfl
  | cons c cs ih =>
    intro acc h
    have hc := h c (List.mem_cons_self c cs)
    rw [List.foldl_cons, goDigits.eq_def]
    simp only [hc, if_true]
    exact ih (acc * 10 + chVal c) (fun x hx => h x (List.mem_cons_of_mem _ hx))

theorem pyIntDigits_all_digits (ds : Str) (hne : ds ≠ [])
    (h : ∀ c ∈ ds, isDig c = true) : pyIntDigits ds = some (valD ds) := by
  cases ds with
  | nil => exact absurd rfl hne
  | cons c cs =>
    simp only [pyIntDigits, h c (List.mem_cons_self c cs), if_true]
    rw [goDigits_all_digits cs (chVal c) (fun x hx => h x (List.mem_cons_of_mem _ hx))]
    simp [valD]

theorem isDig_ne_plus (c : Char) (h : isDig c = true) : (c == '+') = false := by
  cases hc : (c == '+')
  · rfl
  · exfalso
    have he : c = '+' := beq_iff_eq.mp hc
    subst he
    exact absurd h (by decide)

theorem isDig_ne_minus (c : Char) (h : isDig c = true) : (c == '-') = false := by
  cases hc : (c == '-')
  · rfl
  · exfalso
    have he : c = '-' := beq_iff_eq.mp hc
    subst he
    exact absurd h (by decide)

theorem parsePyInt_all_digits (ds : Str) (hne : ds ≠ [])
    (h : ∀ c ∈ ds, isDig c = true) : parsePyInt ds = some ((valD ds : Nat) : Int) := by
  cases ds with
  | nil => exact absurd rfl hne
  | cons c cs =>
    simp only [parsePyInt, isDig_ne_plus c (h c (List.mem_cons_self c cs)),
      isDig_ne_minus c (h c (List.mem_cons_self c cs)), Bool.false_eq_true, if_false]
    rw [pyIntDigits_all_digits (c :: cs) (by simp) h]
    rfl

theorem isDig_not_ws (c : Char) (h : isDig c = true) : pyWS c = false := by
  cases hw : pyWS c
  · rfl
  · exfalso
    unfold pyWS at hw
    simp only [Bool.or_eq_true, beq_iff_eq] at hw
    rcases hw with ((((rfl | rfl) | rfl) | rfl) | rfl) | rfl <;> exact absurd h (by decide)

theorem dropWhile_no_ws (l : Str) (h : ∀ c ∈ l, pyWS c = false) :
    l.dropWhile pyWS = l := by
  cases l with
  | nil => rfl
  | cons c cs => simp [List.dropWhile, h c (List.mem_cons_self c cs)]

theorem pyStrip_no_ws (l : Str) (h : ∀ c ∈ l, pyWS c = false) : pyStrip l = l := by
  unfold pyStrip pyRstrip
  rw [dropWhile_no_ws l.reverse (fun c hc => h c (List.mem_reverse.mp hc)),
    List.reverse_reverse, dropWhile_no_ws l h]

theorem parsePyInt_natToChars (n : Nat) : parsePyInt (pyStrip (natToChars n)) = some (n : Int) := by
  rw [pyStrip_no_ws _ (fun c hc => isDig_not_ws c (natToChars_digits n c hc)),
    parsePyInt_all_digits _ (natToChars_ne_nil n) (natToChars_digits n),
    valD_natToChars]

theorem extractExit_cons_skip (l : Str) (rest : List Str)
    (h : hasPfx exitPfx l = false ∨ parsePyInt (pyStrip (List.drop 10 l)) = none) :
    extractExit (l :: rest)
      = match extractExit rest with
        | some (n, ls) => some (n, l :: ls)
        | none => none := by
  by_cases hp : hasPfx exitPfx l = true
  · rcases h with h | h
    · rw [hp] at h
      cases h
    · rw [extractExit, hp, if_pos rfl, h]
  · have hp2 : hasPfx exitPfx l = false := by
      cases he : hasPfx exitPfx l
      · rfl
      · exact absurd he hp
    rw [extractExit, hp2, if_neg (by simp)]

theorem extractExit_append_skip (us : List Str) (rest : List Str)
    (h : ∀ l ∈ us, hasPfx exitPfx l = false ∨ parsePyInt (pyStrip (List.drop 10 l)) = none) :
    extractExit (us ++ rest)
      = match extractExit rest with
        | some (n, ls) => some (n, us ++ ls)
        | none => none := by
  induction us with
  | nil =>
    cases hr : extractExit rest
    · simp [hr]
    · simp [hr]
  | cons u us2 ih =>
    rw [List.cons_append, extractExit_cons_skip u (us2 ++ rest)
      (h u (List.mem_cons_self u us2)),
      ih (fun x hx => h x (List.mem_cons_of_mem _ hx))]
    cases hr : extractExit rest
    · rfl
    · rfl

theorem extractExit_none (ls : List Str)
    (h : ∀ l ∈ ls, hasPfx exitPfx l = false ∨ parsePyInt (pyStrip (List.drop 10 l)) = none) :
    extractExit ls = none := by
  have he := extractExit_append_skip ls [] h
  rw [List.append_nil] at he
  rw [he]
  rfl

theorem hasPfx_append (l t : Str) : hasPfx l (l ++ t) = true := by
  induction l with
  | nil => rfl
  | cons a as ih => simp [hasPfx, ih]

theorem extractExit_probe (ds : Str) (rest : List Str) (n : Int)
    (hparse : parsePyInt (pyStrip ds) = some n) :
    extractExit ((exitPfx ++ ds) :: rest) = some (n, rest) := by
  have hd : List.drop 10 (exitPfx ++ ds) = ds := by
    have h10 : exitPfx.length = 10 := rfl
    rw [← h10]
    exact List.drop_left _ _
  simp only [extractExit, hasPfx_append, if_true, hd, hparse]

/-! ## Lemmas: substring containment and the probe line (claim C7) -/

theorem hasPfx_decomp (needle : Str) : ∀ hay : Str, hasPfx needle hay = true →
    ∃ suf, hay = needle ++ suf := by
  induction needle with
  | nil => intro hay _; exact ⟨hay, rfl⟩
  | cons a as ih =>
    intro hay h
    cases hay with
    | nil => simp [hasPfx] at h
    | cons b bs =>
      simp only [hasPfx, Bool.and_eq_true, beq_iff_eq] at h
      obtain ⟨suf, he⟩ := ih bs h.2
      exact ⟨suf, by simp [h.1, he]⟩

theorem containsSub_decomp (hay needle : Str) (h : containsSub hay needle = true) :
    ∃ pre suf, hay = pre ++ needle ++ suf := by
  induction hay with
  | nil =>
    simp only [containsSub] at h
    obtain ⟨suf, he⟩ := hasPfx_decomp needle [] h
    exact ⟨[], suf, by simp [← he]⟩
  | cons b bs ih =>
    simp only [containsSub, Bool.or_eq_true] at h
    rcases h with h | h
    · obtain ⟨suf, he⟩ := hasPfx_decomp needle (b :: bs) h
      exact ⟨[], suf, by simp [he]⟩
    · obtain ⟨pre, suf, he⟩ := ih h
      exact ⟨b :: pre, suf, by simp [he]⟩

theorem count_underscore_natToChars (n : Nat) : List.count '_' (natToChars n) = 0 := by
  rw [List.count_eq_zero]
  intro hm
  exact absurd (natToChars_digits n _ hm) (by decide)

/-- The probe line `EXIT_CODE:<digits>\n` never contains the sentinel prefix:
it has a single underscore while the sentinel has eight. -/
theorem probe_no_marker (n : Nat) :
    containsSub (exitPfx ++ natToChars n ++ ['\n']) endMarker = false := by
  cases hc : containsSub (exitPfx ++ natToChars n ++ ['\n']) endMarker
  · rfl
  · exfalso
    obtain ⟨pre, suf, he⟩ := containsSub_decomp _ _ hc
    have hcount := congrArg (List.count '_') he
    simp only [List.count_append] at hcount
    rw [count_underscore_natToChars] at hcount
    have h1 : List.count '_' exitPfx = 1 := by decide
    have h2 : List.count '_' endMarker = 8 := by decide
    have h3 : List.count '_' (['\n'] : Str) = 0 := by decide
    rw [h1, h2, h3] at hcount
    omega

theorem joinAll_append (a b : List Str) : joinAll (a ++ b) = joinAll a ++ joinAll b := by
  induction a with
  | nil => rfl
  | cons l ls ih => simp [joinAll, ih]

theorem splitNl_joinAll_mapped (us : List Str) (r : Str) (h : ∀ u ∈ us, '\n' ∉ u) :
    splitNl (joinAll (us.map (fun l => l ++ ['\n'])) ++ r) = us ++ splitNl r := by
  induction us with
  | nil => simp [joinAll]
  | cons u us2 ih =>
    have h1 : joinAll ((u :: us2).map (fun l => l ++ ['\n']))
        = (u ++ ['\n']) ++ joinAll (us2.map (fun l => l ++ ['\n'])) := rfl
    rw [h1, List.append_assoc]
    have h2 : (['\n'] : Str) ++ (joinAll (us2.map (fun l => l ++ ['\n'])) ++ r)
        = '\n' :: (joinAll (us2.map (fun l => l ++ ['\n'])) ++ r) := rfl
    rw [List.append_assoc, h2, splitNl_append_nl u _ (h u (List.mem_cons_self u us2)),
      ih (fun x hx => h x (List.mem_cons_of_mem _ hx))]
    rfl

theorem pyRstrip_joinNl_empty (us : List Str) :
    pyRstrip (joinNl (us ++ [[]])) = pyRstrip (joinNl us) := by
  cases us with
  | nil => rfl
  | cons u us2 =>
    rw [joinNl_append_empty (u :: us2) (by simp)]
    exact pyRstrip_append_ws _ '\n' (by decide)

/-- C10: on a non-timed-out read whose collected output has no line that both
starts with `EXIT_CODE:` and has an integer-parseable remainder,
`execute_command` leaves `exit_code` at its initialisation value 0 and
returns `error = none`: a missing or unparseable probe is silently reported
as success. -/
theorem C10_missing_probe_zero (s : SessionState) (t : Nat) (arrivals : List Str)
    (hnt : (read_with_timeout arrivals).2 = false)
    (hnp : ∀ l ∈ splitNl (read_with_timeout arrivals).1,
        hasPfx exitPfx l = false ∨ parsePyInt (pyStrip (List.drop 10 l)) = none) :
    execute_command s (.lines arrivals) t
      = ({ alive := true, invocations := s.invocations + 1 },
         { output := pyRstrip (read_with_timeout arrivals).1,
           error := none, exit_code := 0 }) := by
  simp only [execute_command]
  rw [hnt]
  simp only [Bool.false_eq_true, if_false]
  rw [extractExit_none _ hnp, joinNl_splitNl]

theorem C10_missing_probe_zero_witness :
    (read_with_timeout ["hi\n".toList, "___END_OF_COMMAND___w\n".toList]).2 = false
    ∧ (∀ l ∈ splitNl (read_with_timeout
          ["hi\n".toList, "___END_OF_COMMAND___w\n".toList]).1,
        hasPfx exitPfx l = false ∨ parsePyInt (pyStrip (List.drop 10 l)) = none)
    ∧ execute_command initSession
        (.lines ["hi\n".toList, "___END_OF_COMMAND___w\n".toList]) 30
        = ({ alive := true, invocations := 1 },
           { output := pyRstrip (read_with_timeout
               ["hi\n".toList, "___END_OF_COMMAND___w\n".toList]).1,
             error := none, exit_code := 0 }) :=
  ⟨by decide, by decide,
    C10_missing_probe_zero initSession 30
      ["hi\n".toList, "___END_OF_COMMAND___w\n".toList] (by decide) (by decide)⟩

/-- C7 counterexample: a user command that itself prints a line starting with
`EXIT_CODE:` defeats the probe scan.  Here the collected lines are
`EXIT_CODE:5` (printed by the command), `EXIT_CODE:0` (the real probe) and
the sentinel: the scan parses the FIRST parseable tagged line, so the call
returns exit code 5 (not the real status 0) and the real probe line
`EXIT_CODE:0` leaks into the returned output — the output does contain an
exit-status-probe artifact, contradicting the claim. -/
theorem C7_counterexample_probe_leak :
    (execute_command initSession
        (.lines ["EXIT_CODE:5\n".toList, "EXIT_CODE:0\n".toList,
                 "___END_OF_COMMAND___y\n".toList]) 30).2
      = { output := "EXIT_CODE:0".toList, error := none, exit_code := 5 }
    ∧ hasPfx exitPfx
        (execute_command initSession
          (.lines ["EXIT_CODE:5\n".toList, "EXIT_CODE:0\n".toList,
                   "___END_OF_COMMAND___y\n".toList]) 30).2.output = true := by
  decide

/-- C7 (amended): for a non-timed-out execution whose user output lines
contain no sentinel prefix and no parseable `EXIT_CODE:`-tagged line (so the
only parseable tagged line is the injected probe), `execute_command` parses
the probe's integer as the exit code, strips the probe line from the output,
returns `error = none`, and the returned output is exactly the user lines
joined and right-stripped — free of sentinel and probe artifacts. -/
theorem C7_amended_exit_extraction
    (userLines : List Str) (n : Nat) (mline : Str)
    (h1 : ∀ l ∈ userLines, '\n' ∉ l)
    (h2 : ∀ l ∈ userLines, containsSub (l ++ ['\n']) endMarker = false)
    (h3 : ∀ l ∈ userLines, hasPfx exitPfx l = false
            ∨ parsePyInt (pyStrip (List.drop 10 l)) = none)
    (hm : containsSub mline endMarker = true)
    (s : SessionState) (t : Nat) :
    execute_command s
      (.lines ((userLines.map (fun l => l ++ ['\n']))
                 ++ (exitPfx ++ natToChars n ++ ['\n']) :: mline :: [])) t
      = ({ alive := true, invocations := s.invocations + 1 },
         { output := pyRstrip (joinNl userLines), error := none,
           exit_code := (n : Int) }) := by
  have hpre : ∀ l ∈ userLines.map (fun l => l ++ ['\n']) ++ [exitPfx ++ natToChars n ++ ['\n']],
      containsSub l endMarker = false := by
    intro l hl
    rcases List.mem_append.mp hl with hl | hl
    · obtain ⟨u, hu, rfl⟩ := List.mem_map.mp hl
      exact h2 u hu
    · simp only [List.mem_singleton] at hl
      subst hl
      rw [List.append_assoc]
      exact probe_no_marker n
  have hlist : userLines.map (fun l => l ++ ['\n'])
        ++ (exitPfx ++ natToChars n ++ ['\n']) :: mline :: []
      = (userLines.map (fun l => l ++ ['\n']) ++ [exitPfx ++ natToChars n ++ ['\n']])
        ++ mline :: [] := by
    simp
  have hcol : collectLines (userLines.map (fun l => l ++ ['\n'])
        ++ (exitPfx ++ natToChars n ++ ['\n']) :: mline :: [])
      = (userLines.map (fun l => l ++ ['\n']) ++ [exitPfx ++ natToChars n ++ ['\n']],
         false) := by
    rw [hlist]
    exact collectLines_marker _ mline [] hpre hm
  have hread : read_with_timeout (userLines.map (fun l => l ++ ['\n'])
        ++ (exitPfx ++ natToChars n ++ ['\n']) :: mline :: [])
      = (joinAll (userLines.map (fun l => l ++ ['\n']))
          ++ (exitPfx ++ natToChars n ++ ['\n']), false) := by
    unfold read_with_timeout
    rw [hcol, joinAll_append]
    simp [joinAll]
  have hsplit : splitNl (joinAll (userLines.map (fun l => l ++ ['\n']))
        ++ (exitPfx ++ natToChars n ++ ['\n']))
      = userLines ++ [exitPfx ++ natToChars n, []] := by
    rw [splitNl_joinAll_mapped userLines _ h1]
    have hnl : '\n' ∉ exitPfx ++ natToChars n := by
      intro hmem
      rcases List.mem_append.mp hmem with hmem | hmem
      · exact absurd hmem (by decide)
      · exact nl_not_mem_natToChars n hmem
    have hshape : exitPfx ++ natToChars n ++ ['\n']
        = (exitPfx ++ natToChars n) ++ '\n' :: [] := rfl
    rw [hshape, splitNl_append_nl _ _ hnl]
    rfl
  have hex : extractExit (userLines ++ [exitPfx ++ natToChars n, []])
      = some ((n : Int), userLines ++ [[]]) := by
    have hskip := extractExit_append_skip userLines [exitPfx ++ natToChars n, []] h3
    have hprobe : extractExit [exitPfx ++ natToChars n, []]
        = some ((n : Int), [[]]) :=
      extractExit_probe (natToChars n) [[]] (n : Int) (parsePyInt_natToChars n)
    rw [hskip, hprobe]
  simp only [execute_command]
  rw [hread]
  simp only [Bool.false_eq_true, if_false]
  rw [hsplit, hex]
  simp only [pyRstrip_joinNl_empty]

theorem C7_amended_exit_extraction_witness :
    (∀ l ∈ ["hello".toList], '\n' ∉ l)
    ∧ (∀ l ∈ ["hello".toList], containsSub (l ++ ['\n']) endMarker = false)
    ∧ (∀ l ∈ ["hello".toList], hasPfx exitPfx l = false
          ∨ parsePyInt (pyStrip (List.drop 10 l)) = none)
    ∧ containsSub ("___END_OF_COMMAND___z\n".toList) endMarker = true
    ∧ execute_command initSession
        (.lines ((["hello".toList].map (fun l => l ++ ['\n']))
                   ++ (exitPfx ++ natToChars 0 ++ ['\n'])
                        :: "___END_OF_COMMAND___z\n".toList :: [])) 30
        = ({ alive := true, invocations := 1 },
           { output := pyRstrip (joinNl ["hello".toList]), error := none,
             exit_code := (0 : Int) }) :=
  ⟨by decide, by decide, by decide, by decide,
    C7_amended_exit_extraction ["hello".toList] 0 ("___END_OF_COMMAND___z\n".toList)
      (by decide) (by decide) (by decide) (by decide) initSession 30⟩

/-! ## Claims C8 (exit_code field presence) and C6 (denylist blocking) -/

/-- C8 counterexample: the restart-path response contains only `message` and
`output` — its `exit_code` field is absent (`none`), so `exit_code` is NOT
present in every response. -/
theorem C8_counterexample_restart_no_exit_code :
    handle (mkHandler 30 1000) { command := [], restart := true } (.exec (.lines []))
      = Except.ok
          ({ session := { alive := true, invocations := 0 }, timeout := 30,
             max_output_lines := 1000 },
           { output := some [], error := none, exit_code := none,
             message := some ("New bash session started".toList) })
    ∧ (Except.map (fun pr => pr.2.exit_code)
        (handle (mkHandler 30 1000) { command := [], restart := true }
          (.exec (.lines [])))) = Except.ok none := by
  constructor
  · rfl
  · rfl

/-- C8 (amended): for every request with the restart flag false — the empty
command, a denylist rejection, a session fault, a timeout and the success
path alike — the response carries an integer `exit_code` (with `-1` on
internal/timeout faults); only the restart-path response omits it. -/
theorem C8_amended_exit_code_present (h : HandlerState) (inp : ToolInput)
    (env : HandlerEnv) (hres : inp.restart = false) :
    ∃ h2 r, handle h inp env = Except.ok (h2, r) ∧ r.exit_code.isSome = true := by
  unfold handle
  rw [hres]
  simp only [Bool.false_eq_true, if_false]
  by_cases hcmd : inp.command = []
  · rw [if_pos hcmd]
    exact ⟨_, _, rfl, rfl⟩
  · rw [if_neg hcmd]
    rcases hv : validate_command inp.command with ⟨ok, msg⟩
    cases ok
    · exact ⟨_, _, rfl, rfl⟩
    · rcases hex : execute_with_timeout h env with e | pr
      · exact ⟨_, _, rfl, rfl⟩
      · rcases pr with ⟨s2, result⟩
        exact ⟨_, _, rfl, rfl⟩

theorem C8_amended_exit_code_present_witness :
    ({ command := "ok".toList, restart := false } : ToolInput).restart = false
    ∧ ∃ h2 r, handle (mkHandler 30 1000)
          { command := "ok".toList, restart := false } (.exec (.lines []))
        = Except.ok (h2, r) ∧ r.exit_code.isSome = true :=
  ⟨rfl, C8_amended_exit_code_present (mkHandler 30 1000)
    { command := "ok".toList, restart := false } (.exec (.lines [])) rfl⟩

theorem handle_invalid (hd : HandlerState) (cmd : Str) (env : HandlerEnv)
    (msg : Option Str) (hne : ¬ cmd = [])
    (hv : validate_command cmd = (false, msg)) :
    handle hd { command := cmd, restart := false } env
      = Except.ok (hd, { output := some [], error := msg, exit_code := some 1,
                         message := none }) := by
  unfold handle
  rw [if_neg (show ¬(({ command := cmd, restart := false } : ToolInput).restart = true)
        by simp)]
  rw [if_neg (show ¬(({ command := cmd, restart := false } : ToolInput).command = [])
        from hne)]
  have hproj : ({ command := cmd, restart := false } : ToolInput).command = cmd := rfl
  rw [hproj, hv]

/-- C6: a command matching at least one denylist pattern (case-insensitive
search, first match short-circuiting via `find?`) is answered directly with
exit code 1, empty output and a human-readable reason naming the first
matching pattern; the handler state — in particular the session and its
ghost invocation counter — is returned unchanged, so the Session is never
invoked for that command. -/
theorem C6_dangerous_blocked (cmd : Str) (hd : HandlerState) (env : HandlerEnv)
    (hmatch : ∃ pr ∈ DANGEROUS_PATTERNS, rsearch pr.1 cmd = true) :
    ∃ pr, DANGEROUS_PATTERNS.find? (fun q => rsearch q.1 cmd) = some pr
      ∧ pr ∈ DANGEROUS_PATTERNS ∧ rsearch pr.1 cmd = true
      ∧ handle hd { command := cmd, restart := false } env
          = Except.ok (hd,
              { output := some [],
                error := some ("Blocked dangerous command pattern: ".toList ++ pr.2),
                exit_code := some 1, message := none }) := by
  have hfind : (DANGEROUS_PATTERNS.find? (fun q => rsearch q.1 cmd)).isSome := by
    apply List.find?_isSome.mpr
    obtain ⟨pr, hmem, hp⟩ := hmatch
    exact ⟨pr, hmem, hp⟩
  obtain ⟨pr, hpr⟩ := Option.isSome_iff_exists.mp hfind
  have hmem := List.mem_of_find?_eq_some hpr
  have hp : rsearch pr.1 cmd = true := by simpa using List.find?_some hpr
  have hcmd_ne : ¬ cmd = [] := by
    intro he
    subst he
    have hempty : ∀ q ∈ DANGEROUS_PATTERNS, rsearch q.1 [] = false := by decide
    rw [hempty pr hmem] at hp
    cases hp
  have hval : validate_command cmd
      = (false, some ("Blocked dangerous command pattern: ".toList ++ pr.2)) := by
    unfold validate_command
    rw [hpr]
  exact ⟨pr, hpr, hmem, hp, handle_invalid hd cmd env _ hcmd_ne hval⟩

theorem C6_dangerous_blocked_witness :
    (∃ pr ∈ DANGEROUS_PATTERNS, rsearch pr.1 ("RM -RF /".toList) = true)
    ∧ ∃ pr, DANGEROUS_PATTERNS.find? (fun q => rsearch q.1 ("RM -RF /".toList)) = some pr
        ∧ pr ∈ DANGEROUS_PATTERNS ∧ rsearch pr.1 ("RM -RF /".toList) = true
        ∧ handle (mkHandler 30 1000)
            { command := "RM -RF /".toList, restart := false } (.exec (.lines []))
            = Except.ok (mkHandler 30 1000,
                { output := some [],
                  error := some ("Blocked dangerous command pattern: ".toList ++ pr.2),
                  exit_code := some 1, message := none }) :=
  ⟨by decide,
    C6_dangerous_blocked ("RM -RF /".toList) (mkHandler 30 1000)
      (.exec (.lines [])) (by decide)⟩

/-! ## Lemmas: the regex engine on structured inputs (claim C9) -/

theorem starLoop_all (c : CharCls) (k : Str → Option Nat) (hk : k [] = some 0) :
    ∀ u : Str, (∀ x ∈ u, c.mat x = true) → starLoop k c u = some u.length := by
  intro u
  induction u with
  | nil => intro _; simpa using hk
  | cons x xs ih =>
    intro h
    simp only [starLoop, h x (List.mem_cons_self x xs), if_true,
      ih (fun z hz => h z (List.mem_cons_of_mem _ hz))]
    rfl

theorem rmatch_star_all (c : CharCls) (u : Str) (h : ∀ x ∈ u, c.mat x = true) :
    rmatch [RElem.star c] u = some u.length := by
  have hk : rmatch ([] : RPat) [] = some 0 := rfl
  simpa [rmatch] using starLoop_all c (rmatch []) hk u h

theorem rmatch_ones_star (c : CharCls) : ∀ (k : Nat) (u : Str),
    (∀ x ∈ u, c.mat x = true) →
    rmatch (List.replicate k (RElem.one c) ++ [RElem.star c]) u
      = if k ≤ u.length then some u.length else none := by
  intro k
  induction k with
  | zero =>
    intro u h
    simpa using rmatch_star_all c u h
  | succ kk ih =>
    intro u h
    rw [List.replicate_succ, List.cons_append]
    cases u with
    | nil => simp [rmatch]
    | cons x xs =>
      simp only [rmatch, h x (List.mem_cons_self x xs), if_true,
        ih xs (fun z hz => h z (List.mem_cons_of_mem _ hz))]
      by_cases hk : kk ≤ xs.length
      · rw [if_pos hk, if_pos (by simpa using Nat.succ_le_succ hk)]
        rfl
      · rw [if_neg hk, if_neg (by simpa using fun hcon => hk (Nat.le_of_succ_le_succ hcon))]
        rfl

theorem rmatch_ones_fail (c : CharCls) (ps : RPat) :
    ∀ (pre : Str) (x : Char) (rest : Str) (k : Nat),
    (∀ y ∈ pre, c.mat y = true) → c.mat x = false → pre.length < k →
    rmatch (List.replicate k (RElem.one c) ++ ps) (pre ++ x :: rest) = none := by
  intro pre
  induction pre with
  | nil =>
    intro x rest k hpre hx hk
    cases k with
    | zero => omega
    | succ kk =>
      rw [List.replicate_succ, List.cons_append]
      simp [rmatch, hx]
  | cons y pre' ih =>
    intro x rest k hpre hx hk
    cases k with
    | zero => omega
    | succ kk =>
      rw [List.replicate_succ, List.cons_append, List.cons_append]
      simp only [rmatch, hpre y (List.mem_cons_self y pre'), if_true,
        ih x rest kk (fun z hz => hpre z (List.mem_cons_of_mem _ hz)) hx
          (by simpa using Nat.lt_of_succ_lt_succ (by simpa using hk))]
      rfl

theorem rsubF_id (p : RPat) (repl : Str) : ∀ (fuel : Nat) (s : Str),
    (∀ t, t ≠ [] → t <:+ s → rmatch p t = none) → rsubF p repl fuel s = s := by
  intro fuel
  induction fuel with
  | zero =>
    intro s h
    cases s <;> rfl
  | succ f ih =>
    intro s h
    cases s with
    | nil => rfl
    | cons x xs =>
      have hmm0 : rmatch p (x :: xs) = none :=
        h (x :: xs) (by simp) (List.suffix_refl _)
      rw [rsubF.eq_def]
      simp only [hmm0]
      rw [ih xs (fun t htne hts => h t htne (hts.trans (List.suffix_cons x xs)))]

theorem rsub_id (p : RPat) (repl : Str) (s : Str)
    (h : ∀ t, t ≠ [] → t <:+ s → rmatch p t = none) : rsub p repl s = s :=
  rsubF_id p repl s.length s h

theorem rsub_full (p : RPat) (repl : Str) (s : Str) (hne : s ≠ [])
    (hm : rmatch p s = some s.length) : rsub p repl s = repl := by
  cases s with
  | nil => exact absurd rfl hne
  | cons x xs =>
    show rsubF p repl (x :: xs).length (x :: xs) = repl
    have hl : (x :: xs).length = xs.length + 1 := rfl
    rw [hl] at hm ⊢
    rw [rsubF.eq_def]
    simp only [hm]
    rw [List.drop_length]
    rw [rsubF_id p repl _ []
      (fun t htne hts => absurd (List.suffix_nil.mp hts) htne)]
    simp

theorem rsubF_copy (p : RPat) (repl : Str) : ∀ (pre s : Str) (fuel : Nat),
    (∀ t, t ≠ [] → t <:+ pre ++ s → ¬ t <:+ s → rmatch p t = none) →
    rsubF p repl (pre.length + fuel) (pre ++ s) = pre ++ rsubF p repl fuel s := by
  intro pre
  induction pre with
  | nil =>
    intro s fuel h
    simp
  | cons c pre' ih =>
    intro s fuel h
    have hm : rmatch p (c :: (pre' ++ s)) = none := by
      apply h (c :: (pre' ++ s)) (by simp)
      · exact List.suffix_refl _
      · intro hsuf
        have hle := hsuf.length_le
        simp at hle
        omega
    have hlen : (c :: pre').length + fuel = (pre'.length + fuel) + 1 := by
      simp
      omega
    rw [hlen]
    show rsubF p repl (pre'.length + fuel + 1) (c :: (pre' ++ s))
      = c :: (pre' ++ rsubF p repl fuel s)
    rw [rsubF.eq_def]
    simp only [hm]
    rw [ih s fuel (fun t htne hts hnts =>
      h t htne (hts.trans (List.suffix_cons c (pre' ++ s))) hnts)]

theorem suffix_append_split (pre : Str) : ∀ (t s : Str), t <:+ pre ++ s →
    t <:+ s ∨ ∃ p2, p2 ≠ [] ∧ p2 <:+ pre ∧ t = p2 ++ s := by
  induction pre with
  | nil =>
    intro t s h
    exact Or.inl (by simpa using h)
  | cons c pre' ih =>
    intro t s h
    rcases List.suffix_cons_iff.mp h with rfl | h2
    · exact Or.inr ⟨c :: pre', by simp, List.suffix_refl _, rfl⟩
    · rcases ih t s h2 with hin | ⟨p2, hne, hsuf, rfl⟩
      · exact Or.inl hin
      · exact Or.inr ⟨p2, hne, hsuf.trans (List.suffix_cons c pre'), rfl⟩

/-! ## Lemmas: small-step match facts (claim C9) -/

theorem rmatch_one_cons (c : CharCls) (y : Char) (ps : RPat) (ys : Str)
    (h : c.mat y = true) (n : Nat) (hrest : rmatch ps ys = some n) :
    rmatch (RElem.one c :: ps) (y :: ys) = some (n + 1) := by
  simp only [rmatch, h, if_true, hrest]
  rfl

theorem rmatch_opt_consume (c : CharCls) (y : Char) (ps : RPat) (ys : Str)
    (h : c.mat y = true) (n : Nat) (hrest : rmatch ps ys = some n) :
    rmatch (RElem.opt c :: ps) (y :: ys) = some (n + 1) := by
  simp only [rmatch, h, if_true, hrest]

theorem rmatch_opt_skip (c : CharCls) (y : Char) (ps : RPat) (ys : Str)
    (h : c.mat y = false) :
    rmatch (RElem.opt c :: ps) (y :: ys) = rmatch ps (y :: ys) := by
  simp only [rmatch, h, Bool.false_eq_true, if_false]

theorem rmatch_star_skip (c : CharCls) (y : Char) (ps : RPat) (ys : Str)
    (h : c.mat y = false) :
    rmatch (RElem.star c :: ps) (y :: ys) = rmatch ps (y :: ys) := by
  simp only [rmatch, starLoop, h, Bool.false_eq_true, if_false]

/-- C9 counterexample: sanitize_output does not redact every `api_key=<secret>`
assignment in full, and lines without sensitive content are not always
preserved.  (1) In `api_key=x"yz` the value token stops at the double quote,
so the tail `"yz` of the secret survives sanitization.  (2) In
`api_key=abc password= \nhello`, the `\s*` after `password=` absorbs the
newline, so the second line `hello` — which matches no sensitive pattern on
its own — is consumed into the redaction and disappears from the output. -/
theorem C9_counterexample_sanitize :
    sanitize_output ("api_key=x\"yz".toList) = "api_key=[REDACTED]\"yz".toList
    ∧ sanitize_output ("api_key=abc password= \nhello".toList)
        = "api_key=[REDACTED] password=[REDACTED]".toList
    ∧ (∀ pr ∈ SENSITIVE_PATTERNS, rsearch pr.1 ("hello".toList) = false)
    ∧ "hello".toList ∈ splitNl ("api_key=abc password= \nhello".toList)
    ∧ "hello".toList ∉ splitNl (sanitize_output ("api_key=abc password= \nhello".toList)) := by
  refine ⟨by decide, by decide, by decide, by decide, by decide⟩


/-! ## Lemmas: failure steps, value-class characters, and substitution
structure (claim C9) -/

theorem rmatch_one_fail (c : CharCls) (y : Char) (ps : RPat) (ys : Str)
    (h : c.mat y = false) :
    rmatch (RElem.one c :: ps) (y :: ys) = none := by
  simp only [rmatch, h, Bool.false_eq_true, if_false]

theorem rmatch_one_none (c : CharCls) (y : Char) (ps : RPat) (ys : Str)
    (h : rmatch ps ys = none) :
    rmatch (RElem.one c :: ps) (y :: ys) = none := by
  cases hm : c.mat y
  · simp only [rmatch, hm, Bool.false_eq_true, if_false]
  · simp only [rmatch, hm, if_true, h, Option.map_none']

/-- The three possible text characters matched by a case-insensitive pattern
literal. -/
theorem ciEq_cases (c x : Char) (h : ciEq c x = true) :
    x = c ∨ x = upChar c ∨ x = lowChar c := by
  unfold ciEq at h
  simp only [Bool.or_eq_true, beq_iff_eq] at h
  tauto

/-- A character of the value class `[^"'\s]` is not whitespace. -/
theorem notQW_not_ws (z : Char) (h : CharCls.notQW.mat z = true) : pyWS z = false := by
  simp only [CharCls.mat] at h
  rw [Bool.not_eq_true'] at h
  rw [Bool.or_eq_false_iff] at h
  exact h.2

/-- A character of the value class `[^"'\s]` is not a quote. -/
theorem notQW_not_quo (z : Char) (h : CharCls.notQW.mat z = true) :
    CharCls.quo.mat z = false := by
  simp only [CharCls.mat] at h ⊢
  rw [Bool.not_eq_true'] at h
  rw [Bool.or_eq_false_iff] at h
  exact h.1

/-- Every character of a substitution result comes from the scanned string or
from the replacement, so a character predicate holding on both is preserved. -/
theorem rsubF_preserve (f : Char → Bool) (p : RPat) (repl : Str)
    (hr : ∀ c ∈ repl, f c = true) :
    ∀ (fuel : Nat) (s : Str), (∀ c ∈ s, f c = true) →
      ∀ c ∈ rsubF p repl fuel s, f c = true := by
  intro fuel
  induction fuel with
  | zero =>
    intro s hs c hc
    cases s with
    | nil => simp [rsubF] at hc
    | cons x xs => exact hs c hc
  | succ fl ih =>
    intro s hs c hc
    cases s with
    | nil => simp [rsubF] at hc
    | cons x xs =>
      rw [rsubF.eq_def] at hc
      rcases hm : rmatch p (x :: xs) with _ | n
      · simp only [hm] at hc
        rcases List.mem_cons.mp hc with rfl | hc2
        · exact hs c (List.mem_cons_self c xs)
        · exact ih xs (fun d hd => hs d (List.mem_cons_of_mem _ hd)) c hc2
      · cases n with
        | zero =>
          simp only [hm] at hc
          rcases List.mem_cons.mp hc with rfl | hc2
          · exact hs c (List.mem_cons_self c xs)
          · exact ih xs (fun d hd => hs d (List.mem_cons_of_mem _ hd)) c hc2
        | succ nn =>
          simp only [hm] at hc
          rcases List.mem_append.mp hc with hc2 | hc2
          · exact hr c hc2
          · exact ih (List.drop nn xs)
              (fun d hd => hs d (List.mem_cons_of_mem _ (List.drop_subset nn xs hd)))
              c hc2

theorem rsub_preserve (f : Char → Bool) (p : RPat) (repl : Str) (s : Str)
    (hs : ∀ c ∈ s, f c = true) (hr : ∀ c ∈ repl, f c = true) :
    ∀ c ∈ rsub p repl s, f c = true :=
  rsubF_preserve f p repl hr s.length s hs

/-- Substituting inside a nonempty string with a nonempty replacement yields a
nonempty string. -/
theorem rsub_ne_nil (p : RPat) (repl : Str) (s : Str) (hs : s ≠ [])
    (hr : repl ≠ []) : rsub p repl s ≠ [] := by
  cases s with
  | nil => exact absurd rfl hs
  | cons x xs =>
    show rsubF p repl (x :: xs).length (x :: xs) ≠ []
    rw [show (x :: xs).length = xs.length + 1 from rfl, rsubF.eq_def]
    rcases hm : rmatch p (x :: xs) with _ | n
    · simp [hm]
    · cases n with
      | zero => simp [hm]
      | succ nn => simp [hm, hr]

/-! ## Lemmas: the sanitization passes on `api_key=<secret>` with
case-variant key letters (claim C9) -/

/-- Case analysis over the nonempty suffixes of a case-variant key prefix
`a0 p0 i0 _ k0 e0 y0 =`. -/
theorem varPfx_cases (a0 p0 i0 k0 e0 y0 : Char) (P : Str → Prop)
    (h1 : P (a0 :: p0 :: i0 :: '_' :: k0 :: e0 :: y0 :: '=' :: []))
    (h2 : P (p0 :: i0 :: '_' :: k0 :: e0 :: y0 :: '=' :: []))
    (h3 : P (i0 :: '_' :: k0 :: e0 :: y0 :: '=' :: []))
    (h4 : P ('_' :: k0 :: e0 :: y0 :: '=' :: []))
    (h5 : P (k0 :: e0 :: y0 :: '=' :: []))
    (h6 : P (e0 :: y0 :: '=' :: []))
    (h7 : P (y0 :: '=' :: []))
    (h8 : P ('=' :: []))
    (p2 : Str) (hp2ne : p2 ≠ [])
    (hp2suf : p2 <:+ (a0 :: p0 :: i0 :: '_' :: k0 :: e0 :: y0 :: '=' :: [])) :
    P p2 := by
  rcases List.suffix_cons_iff.mp hp2suf with rfl | hs1
  · exact h1
  rcases List.suffix_cons_iff.mp hs1 with rfl | hs2
  · exact h2
  rcases List.suffix_cons_iff.mp hs2 with rfl | hs3
  · exact h3
  rcases List.suffix_cons_iff.mp hs3 with rfl | hs4
  · exact h4
  rcases List.suffix_cons_iff.mp hs4 with rfl | hs5
  · exact h5
  rcases List.suffix_cons_iff.mp hs5 with rfl | hs6
  · exact h6
  rcases List.suffix_cons_iff.mp hs6 with rfl | hs7
  · exact h7
  rcases List.suffix_cons_iff.mp hs7 with rfl | hs8
  · exact h8
  exact absurd (List.suffix_nil.mp hs8) hp2ne

/-- The token pattern `[A-Za-z0-9]{20,}` matches at no position that starts
inside the case-variant key prefix: the underscore or the equals sign breaks
the alphanumeric run long before 20 characters. -/
theorem sensToken_pfx_fail_var (a0 p0 i0 k0 e0 y0 : Char)
    (ha : ciEq 'a' a0 = true) (hp : ciEq 'p' p0 = true) (hi : ciEq 'i' i0 = true)
    (hk : ciEq 'k' k0 = true) (he : ciEq 'e' e0 = true) (hy : ciEq 'y' y0 = true)
    (secret : Str) :
    ∀ t, t ≠ [] →
      t <:+ (a0 :: p0 :: i0 :: '_' :: k0 :: e0 :: y0 :: '=' :: []) ++ secret →
      ¬ t <:+ secret → rmatch sensToken t = none := by
  have ha2 : CharCls.alnum.mat a0 = true := by
    rcases ciEq_cases _ _ ha with rfl | rfl | rfl <;> decide
  have hp2 : CharCls.alnum.mat p0 = true := by
    rcases ciEq_cases _ _ hp with rfl | rfl | rfl <;> decide
  have hi2 : CharCls.alnum.mat i0 = true := by
    rcases ciEq_cases _ _ hi with rfl | rfl | rfl <;> decide
  have hk2 : CharCls.alnum.mat k0 = true := by
    rcases ciEq_cases _ _ hk with rfl | rfl | rfl <;> decide
  have he3 : CharCls.alnum.mat e0 = true := by
    rcases ciEq_cases _ _ he with rfl | rfl | rfl <;> decide
  have hy2 : CharCls.alnum.mat y0 = true := by
    rcases ciEq_cases _ _ hy with rfl | rfl | rfl <;> decide
  have hall3a : ∀ z ∈ [a0, p0, i0], CharCls.alnum.mat z = true := by
    intro z hz
    simp only [List.mem_cons, List.not_mem_nil, or_false] at hz
    rcases hz with rfl | rfl | rfl
    · exact ha2
    · exact hp2
    · exact hi2
  have hall2a : ∀ z ∈ [p0, i0], CharCls.alnum.mat z = true := by
    intro z hz
    simp only [List.mem_cons, List.not_mem_nil, or_false] at hz
    rcases hz with rfl | rfl
    · exact hp2
    · exact hi2
  have hall1a : ∀ z ∈ [i0], CharCls.alnum.mat z = true := by
    intro z hz
    simp only [List.mem_singleton] at hz
    subst hz
    exact hi2
  have hall3k : ∀ z ∈ [k0, e0, y0], CharCls.alnum.mat z = true := by
    intro z hz
    simp only [List.mem_cons, List.not_mem_nil, or_false] at hz
    rcases hz with rfl | rfl | rfl
    · exact hk2
    · exact he3
    · exact hy2
  have hall2k : ∀ z ∈ [e0, y0], CharCls.alnum.mat z = true := by
    intro z hz
    simp only [List.mem_cons, List.not_mem_nil, or_false] at hz
    rcases hz with rfl | rfl
    · exact he3
    · exact hy2
  have hall1k : ∀ z ∈ [y0], CharCls.alnum.mat z = true := by
    intro z hz
    simp only [List.mem_singleton] at hz
    subst hz
    exact hy2
  intro t htne hsuf hnsec
  rcases suffix_append_split (a0 :: p0 :: i0 :: '_' :: k0 :: e0 :: y0 :: '=' :: [])
      t secret hsuf with hin | ⟨q, hqne, hqsuf, rfl⟩
  · exact absurd hin hnsec
  · refine varPfx_cases a0 p0 i0 k0 e0 y0
      (fun q => rmatch sensToken (q ++ secret) = none)
      ?_ ?_ ?_ ?_ ?_ ?_ ?_ ?_ q hqne hqsuf
    · exact rmatch_ones_fail CharCls.alnum [RElem.star CharCls.alnum]
        [a0, p0, i0] '_' (k0 :: e0 :: y0 :: '=' :: secret) 20
        hall3a (by decide) (by simp)
    · exact rmatch_ones_fail CharCls.alnum [RElem.star CharCls.alnum]
        [p0, i0] '_' (k0 :: e0 :: y0 :: '=' :: secret) 20
        hall2a (by decide) (by simp)
    · exact rmatch_ones_fail CharCls.alnum [RElem.star CharCls.alnum]
        [i0] '_' (k0 :: e0 :: y0 :: '=' :: secret) 20
        hall1a (by decide) (by simp)
    · exact rmatch_ones_fail CharCls.alnum [RElem.star CharCls.alnum]
        [] '_' (k0 :: e0 :: y0 :: '=' :: secret) 20 (by simp) (by decide) (by simp)
    · exact rmatch_ones_fail CharCls.alnum [RElem.star CharCls.alnum]
        [k0, e0, y0] '=' secret 20 hall3k (by decide) (by simp)
    · exact rmatch_ones_fail CharCls.alnum [RElem.star CharCls.alnum]
        [e0, y0] '=' secret 20 hall2k (by decide) (by simp)
    · exact rmatch_ones_fail CharCls.alnum [RElem.star CharCls.alnum]
        [y0] '=' secret 20 hall1k (by decide) (by simp)
    · exact rmatch_ones_fail CharCls.alnum [RElem.star CharCls.alnum]
        [] '=' secret 20 (by simp) (by decide) (by simp)

/-- The password pattern matches at no position that starts inside the
case-variant key prefix: the literal `password` mismatches within its first
two characters there, in every letter case. -/
theorem sensPassword_pfx_fail_var (a0 p0 i0 k0 e0 y0 : Char)
    (ha : ciEq 'a' a0 = true) (hp : ciEq 'p' p0 = true) (hi : ciEq 'i' i0 = true)
    (hk : ciEq 'k' k0 = true) (he : ciEq 'e' e0 = true) (hy : ciEq 'y' y0 = true)
    (secret : Str) :
    ∀ t, t ≠ [] →
      t <:+ (a0 :: p0 :: i0 :: '_' :: k0 :: e0 :: y0 :: '=' :: []) ++ secret →
      ¬ t <:+ secret → rmatch sensPassword t = none := by
  have hpa : (CharCls.lit 'p').mat a0 = false := by
    rcases ciEq_cases _ _ ha with rfl | rfl | rfl <;> decide
  have hai : (CharCls.lit 'a').mat i0 = false := by
    rcases ciEq_cases _ _ hi with rfl | rfl | rfl <;> decide
  have hpi : (CharCls.lit 'p').mat i0 = false := by
    rcases ciEq_cases _ _ hi with rfl | rfl | rfl <;> decide
  have hpk : (CharCls.lit 'p').mat k0 = false := by
    rcases ciEq_cases _ _ hk with rfl | rfl | rfl <;> decide
  have hpe : (CharCls.lit 'p').mat e0 = false := by
    rcases ciEq_cases _ _ he with rfl | rfl | rfl <;> decide
  have hpy : (CharCls.lit 'p').mat y0 = false := by
    rcases ciEq_cases _ _ hy with rfl | rfl | rfl <;> decide
  intro t htne hsuf hnsec
  rcases suffix_append_split (a0 :: p0 :: i0 :: '_' :: k0 :: e0 :: y0 :: '=' :: [])
      t secret hsuf with hin | ⟨q, hqne, hqsuf, rfl⟩
  · exact absurd hin hnsec
  · refine varPfx_cases a0 p0 i0 k0 e0 y0
      (fun q => rmatch sensPassword (q ++ secret) = none)
      ?_ ?_ ?_ ?_ ?_ ?_ ?_ ?_ q hqne hqsuf
    · exact rmatch_one_fail _ a0 _ _ hpa
    · exact rmatch_one_none _ p0 _ _ (rmatch_one_fail _ i0 _ _ hai)
    · exact rmatch_one_fail _ i0 _ _ hpi
    · exact rmatch_one_fail _ '_' _ _ (by decide)
    · exact rmatch_one_fail _ k0 _ _ hpk
    · exact rmatch_one_fail _ e0 _ _ hpe
    · exact rmatch_one_fail _ y0 _ _ hpy
    · exact rmatch_one_fail _ '=' _ _ (by decide)

/-- The api-key pattern matches the whole of `<key-variant>=<secret>` for a
nonempty secret of `[^"'\s]` characters, consuming the entire string; the
key letters may be in either case. -/
theorem sensApiKey_match_var (a0 p0 i0 k0 e0 y0 : Char)
    (ha : ciEq 'a' a0 = true) (hp : ciEq 'p' p0 = true) (hi : ciEq 'i' i0 = true)
    (hk : ciEq 'k' k0 = true) (he : ciEq 'e' e0 = true) (hy : ciEq 'y' y0 = true)
    (secret : Str) (hne : secret ≠ [])
    (hsec : ∀ c ∈ secret, CharCls.notQW.mat c = true) :
    rmatch sensApiKey ((a0 :: p0 :: i0 :: '_' :: k0 :: e0 :: y0 :: '=' :: []) ++ secret)
      = some (((a0 :: p0 :: i0 :: '_' :: k0 :: e0 :: y0 :: '=' :: []) ++ secret).length) := by
  cases secret with
  | nil => exact absurd rfl hne
  | cons z zs =>
    have hz := hsec z (List.mem_cons_self z zs)
    have hzs : ∀ c ∈ zs, CharCls.notQW.mat c = true :=
      fun c hc => hsec c (List.mem_cons_of_mem _ hc)
    have hB1 : rmatch [RElem.star CharCls.notQW] zs = some zs.length :=
      rmatch_star_all CharCls.notQW zs hzs
    have hB2 : rmatch [RElem.one CharCls.notQW, RElem.star CharCls.notQW] (z :: zs)
        = some (zs.length + 1) :=
      rmatch_one_cons CharCls.notQW z _ zs hz zs.length hB1
    have hB3 : rmatch [RElem.opt CharCls.quo, RElem.one CharCls.notQW,
        RElem.star CharCls.notQW] (z :: zs) = some (zs.length + 1) := by
      rw [rmatch_opt_skip CharCls.quo z _ zs (notQW_not_quo z hz)]
      exact hB2
    have hB4 : rmatch [RElem.star CharCls.wsp, RElem.opt CharCls.quo,
        RElem.one CharCls.notQW, RElem.star CharCls.notQW] (z :: zs)
        = some (zs.length + 1) := by
      have hzw : CharCls.wsp.mat z = false := notQW_not_ws z hz
      rw [rmatch_star_skip CharCls.wsp z _ zs hzw]
      exact hB3
    have hB5 : rmatch [RElem.one CharCls.eqcolon, RElem.star CharCls.wsp,
        RElem.opt CharCls.quo, RElem.one CharCls.notQW, RElem.star CharCls.notQW]
        ('=' :: z :: zs) = some (zs.length + 2) :=
      rmatch_one_cons CharCls.eqcolon '=' _ (z :: zs) (by decide) _ hB4
    have hB6 : rmatch [RElem.star CharCls.wsp, RElem.one CharCls.eqcolon,
        RElem.star CharCls.wsp, RElem.opt CharCls.quo, RElem.one CharCls.notQW,
        RElem.star CharCls.notQW] ('=' :: z :: zs) = some (zs.length + 2) := by
      rw [rmatch_star_skip CharCls.wsp '=' _ (z :: zs) (by decide)]
      exact hB5
    have hB7 : rmatch (RElem.one (CharCls.lit 'y')
        :: [RElem.star CharCls.wsp, RElem.one CharCls.eqcolon, RElem.star CharCls.wsp,
            RElem.opt CharCls.quo, RElem.one CharCls.notQW, RElem.star CharCls.notQW])
        (y0 :: '=' :: z :: zs) = some (zs.length + 3) :=
      rmatch_one_cons (CharCls.lit 'y') y0 _ _ hy _ hB6
    have hB8 : rmatch (RElem.one (CharCls.lit 'e') :: RElem.one (CharCls.lit 'y')
        :: [RElem.star CharCls.wsp, RElem.one CharCls.eqcolon, RElem.star CharCls.wsp,
            RElem.opt CharCls.quo, RElem.one CharCls.notQW, RElem.star CharCls.notQW])
        (e0 :: y0 :: '=' :: z :: zs) = some (zs.length + 4) :=
      rmatch_one_cons (CharCls.lit 'e') e0 _ _ he _ hB7
    have hB9 : rmatch (RElem.one (CharCls.lit 'k') :: RElem.one (CharCls.lit 'e')
        :: RElem.one (CharCls.lit 'y')
        :: [RElem.star CharCls.wsp, RElem.one CharCls.eqcolon, RElem.star CharCls.wsp,
            RElem.opt CharCls.quo, RElem.one CharCls.notQW, RElem.star CharCls.notQW])
        (k0 :: e0 :: y0 :: '=' :: z :: zs) = some (zs.length + 5) :=
      rmatch_one_cons (CharCls.lit 'k') k0 _ _ hk _ hB8
    have hB10 : rmatch (RElem.opt CharCls.usdash :: RElem.one (CharCls.lit 'k')
        :: RElem.one (CharCls.lit 'e') :: RElem.one (CharCls.lit 'y')
        :: [RElem.star CharCls.wsp, RElem.one CharCls.eqcolon, RElem.star CharCls.wsp,
            RElem.opt CharCls.quo, RElem.one CharCls.notQW, RElem.star CharCls.notQW])
        ('_' :: k0 :: e0 :: y0 :: '=' :: z :: zs) = some (zs.length + 6) :=
      rmatch_opt_consume CharCls.usdash '_' _ _ (by decide) _ hB9
    have hB11 : rmatch (RElem.one (CharCls.lit 'i') :: RElem.opt CharCls.usdash
        :: RElem.one (CharCls.lit 'k') :: RElem.one (CharCls.lit 'e')
        :: RElem.one (CharCls.lit 'y')
        :: [RElem.star CharCls.wsp, RElem.one CharCls.eqcolon, RElem.star CharCls.wsp,
            RElem.opt CharCls.quo, RElem.one CharCls.notQW, RElem.star CharCls.notQW])
        (i0 :: '_' :: k0 :: e0 :: y0 :: '=' :: z :: zs) = some (zs.length + 7) :=
      rmatch_one_cons (CharCls.lit 'i') i0 _ _ hi _ hB10
    have hB12 : rmatch (RElem.one (CharCls.lit 'p') :: RElem.one (CharCls.lit 'i')
        :: RElem.opt CharCls.usdash :: RElem.one (CharCls.lit 'k')
        :: RElem.one (CharCls.lit 'e') :: RElem.one (CharCls.lit 'y')
        :: [RElem.star CharCls.wsp, RElem.one CharCls.eqcolon, RElem.star CharCls.wsp,
            RElem.opt CharCls.quo, RElem.one CharCls.notQW, RElem.star CharCls.notQW])
        (p0 :: i0 :: '_' :: k0 :: e0 :: y0 :: '=' :: z :: zs)
        = some (zs.length + 8) :=
      rmatch_one_cons (CharCls.lit 'p') p0 _ _ hp _ hB11
    have hB13 : rmatch (RElem.one (CharCls.lit 'a') :: RElem.one (CharCls.lit 'p')
        :: RElem.one (CharCls.lit 'i') :: RElem.opt CharCls.usdash
        :: RElem.one (CharCls.lit 'k') :: RElem.one (CharCls.lit 'e')
        :: RElem.one (CharCls.lit 'y')
        :: [RElem.star CharCls.wsp, RElem.one CharCls.eqcolon, RElem.star CharCls.wsp,
            RElem.opt CharCls.quo, RElem.one CharCls.notQW, RElem.star CharCls.notQW])
        (a0 :: p0 :: i0 :: '_' :: k0 :: e0 :: y0 :: '=' :: z :: zs)
        = some (zs.length + 9) :=
      rmatch_one_cons (CharCls.lit 'a') a0 _ _ ha _ hB12
    exact hB13

/-- C9 (amended): for every output text that is an assignment
`api_key=<secret>` with the key letters in any case (`API_KEY=`, `Api_Key=`,
…, underscore and equals sign literal) and a nonempty secret containing no
quote characters and no whitespace, `sanitize_output` replaces the whole
assignment with the fixed redaction `api_key=[REDACTED]`: the token pass and
the password pass can only rewrite inside the secret (never starting inside
the key), preserving its quote-free whitespace-free shape, and the api-key
pass then consumes key and value entirely.  Secrets containing quote or
whitespace characters, and the unconditional per-line preservation clause,
are excluded — the counterexample shows both exclusions are necessary. -/
theorem C9_amended_api_key_redacted (a0 p0 i0 k0 e0 y0 : Char) (secret : Str)
    (ha : ciEq 'a' a0 = true) (hp : ciEq 'p' p0 = true) (hi : ciEq 'i' i0 = true)
    (hk : ciEq 'k' k0 = true) (he : ciEq 'e' e0 = true) (hy : ciEq 'y' y0 = true)
    (hne : secret ≠ [])
    (hsec : ∀ c ∈ secret, CharCls.notQW.mat c = true) :
    sanitize_output ((a0 :: p0 :: i0 :: '_' :: k0 :: e0 :: y0 :: '=' :: []) ++ secret)
      = "api_key=[REDACTED]".toList := by
  have hcopy1 : rsub sensToken ("[REDACTED_TOKEN]".toList)
      ((a0 :: p0 :: i0 :: '_' :: k0 :: e0 :: y0 :: '=' :: []) ++ secret)
    = (a0 :: p0 :: i0 :: '_' :: k0 :: e0 :: y0 :: '=' :: [])
        ++ rsub sensToken ("[REDACTED_TOKEN]".toList) secret := by
    have hc := rsubF_copy sensToken ("[REDACTED_TOKEN]".toList)
      (a0 :: p0 :: i0 :: '_' :: k0 :: e0 :: y0 :: '=' :: []) secret secret.length
      (sensToken_pfx_fail_var a0 p0 i0 k0 e0 y0 ha hp hi hk he hy secret)
    show rsubF sensToken ("[REDACTED_TOKEN]".toList)
        ((a0 :: p0 :: i0 :: '_' :: k0 :: e0 :: y0 :: '=' :: []) ++ secret).length
        ((a0 :: p0 :: i0 :: '_' :: k0 :: e0 :: y0 :: '=' :: []) ++ secret)
      = (a0 :: p0 :: i0 :: '_' :: k0 :: e0 :: y0 :: '=' :: [])
          ++ rsub sensToken ("[REDACTED_TOKEN]".toList) secret
    rw [List.length_append]
    exact hc
  have hs1ne : rsub sensToken ("[REDACTED_TOKEN]".toList) secret ≠ [] :=
    rsub_ne_nil sensToken ("[REDACTED_TOKEN]".toList) secret hne (by decide)
  have hs1tok : ∀ c ∈ rsub sensToken ("[REDACTED_TOKEN]".toList) secret,
      CharCls.notQW.mat c = true :=
    rsub_preserve (fun c => CharCls.notQW.mat c) sensToken ("[REDACTED_TOKEN]".toList)
      secret hsec (by decide)
  have hcopy2 : rsub sensPassword ("password=[REDACTED]".toList)
      ((a0 :: p0 :: i0 :: '_' :: k0 :: e0 :: y0 :: '=' :: [])
        ++ rsub sensToken ("[REDACTED_TOKEN]".toList) secret)
    = (a0 :: p0 :: i0 :: '_' :: k0 :: e0 :: y0 :: '=' :: [])
        ++ rsub sensPassword ("password=[REDACTED]".toList)
            (rsub sensToken ("[REDACTED_TOKEN]".toList) secret) := by
    have hc := rsubF_copy sensPassword ("password=[REDACTED]".toList)
      (a0 :: p0 :: i0 :: '_' :: k0 :: e0 :: y0 :: '=' :: [])
      (rsub sensToken ("[REDACTED_TOKEN]".toList) secret)
      (rsub sensToken ("[REDACTED_TOKEN]".toList) secret).length
      (sensPassword_pfx_fail_var a0 p0 i0 k0 e0 y0 ha hp hi hk he hy
        (rsub sensToken ("[REDACTED_TOKEN]".toList) secret))
    show rsubF sensPassword ("password=[REDACTED]".toList)
        ((a0 :: p0 :: i0 :: '_' :: k0 :: e0 :: y0 :: '=' :: [])
          ++ rsub sensToken ("[REDACTED_TOKEN]".toList) secret).length
        ((a0 :: p0 :: i0 :: '_' :: k0 :: e0 :: y0 :: '=' :: [])
          ++ rsub sensToken ("[REDACTED_TOKEN]".toList) secret)
      = (a0 :: p0 :: i0 :: '_' :: k0 :: e0 :: y0 :: '=' :: [])
          ++ rsub sensPassword ("password=[REDACTED]".toList)
              (rsub sensToken ("[REDACTED_TOKEN]".toList) secret)
    rw [List.length_append]
    exact hc
  have hs2ne : rsub sensPassword ("password=[REDACTED]".toList)
      (rsub sensToken ("[REDACTED_TOKEN]".toList) secret) ≠ [] :=
    rsub_ne_nil sensPassword ("password=[REDACTED]".toList) _ hs1ne (by decide)
  have hs2tok : ∀ c ∈ rsub sensPassword ("password=[REDACTED]".toList)
      (rsub sensToken ("[REDACTED_TOKEN]".toList) secret),
      CharCls.notQW.mat c = true :=
    rsub_preserve (fun c => CharCls.notQW.mat c) sensPassword
      ("password=[REDACTED]".toList) _ hs1tok (by decide)
  have hunfold : sanitize_output
      ((a0 :: p0 :: i0 :: '_' :: k0 :: e0 :: y0 :: '=' :: []) ++ secret)
    = rsub sensApiKey ("api_key=[REDACTED]".toList)
        (rsub sensPassword ("password=[REDACTED]".toList)
          (rsub sensToken ("[REDACTED_TOKEN]".toList)
            ((a0 :: p0 :: i0 :: '_' :: k0 :: e0 :: y0 :: '=' :: []) ++ secret))) := rfl
  rw [hunfold, hcopy1, hcopy2]
  exact rsub_full sensApiKey ("api_key=[REDACTED]".toList) _ (by simp)
    (sensApiKey_match_var a0 p0 i0 k0 e0 y0 ha hp hi hk he hy _ hs2ne hs2tok)

theorem C9_amended_api_key_redacted_witness :
    ciEq 'a' 'A' = true ∧ ciEq 'p' 'P' = true ∧ ciEq 'i' 'I' = true
    ∧ ciEq 'k' 'K' = true ∧ ciEq 'e' 'E' = true ∧ ciEq 'y' 'Y' = true
    ∧ ("abc-def123".toList ≠ [])
    ∧ (∀ c ∈ "abc-def123".toList, CharCls.notQW.mat c = true)
    ∧ sanitize_output (('A' :: 'P' :: 'I' :: '_' :: 'K' :: 'E' :: 'Y' :: '=' :: [])
          ++ "abc-def123".toList)
        = "api_key=[REDACTED]".toList :=
  ⟨by decide, by decide, by decide, by decide, by decide, by decide, by decide, by decide,
    C9_amended_api_key_redacted 'A' 'P' 'I' 'K' 'E' 'Y' ("abc-def123".toList)
      (by decide) (by decide) (by decide) (by decide) (by decide) (by decide)
      (by decide) (by decide)⟩
